import Mathlib

/-!
Verification model of the m-lang interpreter (Rust sources: src/ast.rs,
src/value.rs, src/environment.rs, src/interpreter.rs).

The evaluator is embedded shallowly as a fueled, state-passing function.
Modelling conventions:
* `f64` numbers are idealised as exact rationals (`ℚ`); IEEE rounding,
  infinities and NaN are outside the model.  Truncating casts (`as i32`,
  `as usize`) are modelled with their Rust saturating semantics.
* stdout is a list of written chunks, stdin a list of pre-read lines.
* `Expr::Use` (file inclusion) touches the filesystem and is not modelled;
  no other construct depends on it.
* `HashMap<String, Value>` frames are association lists with at most one
  entry per key (insert replaces in place or appends).
-/

namespace MLang

/-- Operator token kinds used by `Interpreter::evaluate_binary` /
`evaluate_unary` (src/token.rs).  `Equal` is carried along as a
representative non-operator kind so the `Unknown operator` arms of the
Rust `match` statements stay reachable. -/
inductive TokenType where
  | Plus | Minus | Multiply | Divide | Modulo
  | LessThan | LessThanEqual | GreaterThan | GreaterThanEqual
  | EqualEqual | BangEqual
  | And | Or | Not
  | Equal
deriving DecidableEq

/-- Rust `{:?}` rendering of a `TokenType`, used in error messages. -/
def tokenTypeRepr : TokenType → String
  | .Plus => "Plus"
  | .Minus => "Minus"
  | .Multiply => "Multiply"
  | .Divide => "Divide"
  | .Modulo => "Modulo"
  | .LessThan => "LessThan"
  | .LessThanEqual => "LessThanEqual"
  | .GreaterThan => "GreaterThan"
  | .GreaterThanEqual => "GreaterThanEqual"
  | .EqualEqual => "EqualEqual"
  | .BangEqual => "BangEqual"
  | .And => "And"
  | .Or => "Or"
  | .Not => "Not"
  | .Equal => "Equal"

/-- AST (src/ast.rs `enum Expr`), minus the filesystem-bound `Use` variant. -/
inductive Expr where
  | Number (value : ℚ)
  | String (value : String)
  | Boolean (value : Bool)
  | Array (elements : List Expr)
  | Variable (name : String)
  | Binary (left : Expr) (operator : TokenType) (right : Expr)
  | Unary (operator : TokenType) (right : Expr)
  | Assign (name : String) (value : Expr)
  | Call (callee : String) (arguments : List Expr)
  | Function (name : String) (params : List String) (body : List Expr)
  | Return (value : Option Expr)
  | Block (expressions : List Expr)
  | If (condition : Expr) (thenBranch : Expr) (elseBranch : Option Expr)
  | For (varName : String) (iterable : Expr) (body : Expr)
  | Index (object : Expr) (index : Expr)
  | While (condition : Expr) (body : Expr)
  | Transformer (name : String) (params : List String) (body : List Expr)
  | Apply (object : Expr) (transformer : String) (arguments : List Expr)

/-- Runtime values (src/value.rs `enum Value`). -/
inductive Value where
  | Number (n : ℚ)
  | String (s : String)
  | Boolean (b : Bool)
  | Array (elements : List Value)
  | Function (params : List String) (body : List Expr)
  | Transformer (params : List String) (body : List Expr)
  | Nil

/-- One scope frame: the Rust `HashMap<String, Value>` of an `Environment`. -/
abbrev Frame := List (String × Value)

/-- The environment chain, innermost frame first
(src/environment.rs: each `Environment` owns an optional enclosing one). -/
abbrev Env := List Frame

/-- `HashMap::get` on one frame. -/
def lookupFrame (f : Frame) (name : String) : Option Value :=
  (f.find? (fun p => p.1 == name)).map (fun p => p.2)

/-- `HashMap::insert`: replace the existing entry or append a new one. -/
def insertFrame (f : Frame) (name : String) (v : Value) : Frame :=
  if (f.find? (fun p => p.1 == name)).isSome then
    f.map (fun p => if p.1 == name then (name, v) else p)
  else
    f ++ [(name, v)]

/-- `Environment::get`: walk the chain inward-to-outward. -/
def envGet : Env → String → Option Value
  | [], _ => none
  | f :: t, name =>
    match lookupFrame f name with
    | some v => some v
    | none => envGet t name

/-- `Environment::define`: insert into the innermost frame.  (The Rust
environment always has an innermost frame; the empty-chain case is
unreachable and modelled as a no-op.) -/
def envDefine : Env → String → Value → Env
  | [], _, _ => []
  | f :: t, name, v => insertFrame f name v :: t

/-- `Environment::assign`: update the first frame that binds the name;
`none` models the `Err("Undefined variable '…'")` branch. -/
def envAssign : Env → String → Value → Option Env
  | [], _, _ => none
  | f :: t, name, v =>
    if (lookupFrame f name).isSome then
      some (insertFrame f name v :: t)
    else
      (envAssign t name v).map (fun t' => f :: t')

/-- Interpreter-visible state: the environment plus the I/O channels. -/
structure State where
  env : Env
  stdin : List String
  output : List String

/-- Evaluation errors: a Rust `Err(String)` or fuel exhaustion
(the model's stand-in for nontermination). -/
inductive EvalErr where
  | msg (s : String)
  | fuel

abbrev Res := Except EvalErr (Value × State)

/-- Truncation toward zero, as Rust float `trunc`/casts do. -/
def truncQ (q : ℚ) : ℤ :=
  if q < 0 then ⌈q⌉ else ⌊q⌋

/-- Rust `%` on floats (`fmod`): `a - b * trunc(a / b)`, exact here. -/
def fmodQ (a b : ℚ) : ℚ :=
  a - b * (truncQ (a / b) : ℚ)

/-- `f64::rem_euclid` (interpreter.rs Modulo arm):
`let r = self % rhs; if r < 0.0 { r + rhs.abs() } else { r }`. -/
def remEuclid (a b : ℚ) : ℚ :=
  let r := fmodQ a b
  if r < 0 then r + |b| else r

def i32Min : ℤ := -(2 ^ 31)

def i32Max : ℤ := 2 ^ 31 - 1

/-- Rust `f64 as i32`: truncate toward zero, saturating at the bounds. -/
def f64AsI32 (q : ℚ) : ℤ :=
  max i32Min (min i32Max (truncQ q))

def usizeMax : ℕ := 2 ^ 64 - 1

/-- Rust `f64 as usize`: negatives collapse to 0, truncate, saturate. -/
def f64AsUsize (q : ℚ) : ℕ :=
  if q < 0 then 0 else min (truncQ q).toNat usizeMax

/-- `range` builtin payload: `for i in start..end { push(i as f64) }`. -/
def rangeArray (start stop : ℤ) : List Value :=
  (List.range (stop - start).toNat).map (fun (i : ℕ) => Value.Number ((start : ℚ) + (i : ℚ)))

/-! ### Number formatting and parsing

Rust renders an `f64` with `Display`/`to_string` as its shortest
round-tripping plain decimal (never scientific notation; integral values
print with no fractional part), and parses with `str::parse::<f64>`.
In the exact-rational idealisation the shortest decimal of a rational
with denominator `2^a * 5^b` is its exact minimal decimal expansion. -/

def digitChar (d : ℕ) : Char := Char.ofNat (48 + d)

/-- Decimal digit characters of `m`, most significant first. -/
def natDigitChars (m : ℕ) : List Char :=
  if m = 0 then ['0'] else (Nat.digits 10 m).reverse.map digitChar

/-- Least `k` with `d ∣ 10 ^ k` (searched up to `d`, enough whenever such
a `k` exists at all). -/
def minPow10 (d : ℕ) : ℕ :=
  match (List.range (d + 1)).find? (fun k => decide (d ∣ 10 ^ k)) with
  | some k => k
  | none => 0

/-- Decimal characters of `m / 10 ^ k` with the point inserted `k` digits
from the right (the digit string is zero-padded so at least one digit
precedes the point). -/
def fracChars (m k : ℕ) : List Char :=
  let padded := Nat.digits 10 m ++ List.replicate (k + 1 - (Nat.digits 10 m).length) 0
  let rev := padded.reverse.map digitChar
  rev.take (rev.length - k) ++ '.' :: rev.drop (rev.length - k)

/-- Unsigned part of the Rust `Display` rendering of `|q|`: integral
values print with no point, others as their exact minimal decimal. -/
def fmtBody (a : ℚ) : List Char :=
  if a.den = 1 then natDigitChars a.num.toNat
  else fracChars ((a * (10 : ℚ) ^ minPow10 a.den).num.toNat) (minPow10 a.den)

/-- Characters of the Rust `Display` rendering of a number. -/
def fmtNumChars (q : ℚ) : List Char :=
  if q < 0 then '-' :: fmtBody |q| else fmtBody |q|

/-- Rust `f64` `Display` / `to_string` on a number. -/
def fmtNum (q : ℚ) : String := String.mk (fmtNumChars q)

def digitVal? (c : Char) : Option ℕ :=
  if 48 ≤ c.toNat ∧ c.toNat ≤ 57 then some (c.toNat - 48) else none

/-- Digit values of a character list; `none` on any non-digit. -/
def digitVals : List Char → Option (List ℕ)
  | [] => some []
  | c :: t =>
    match digitVal? c, digitVals t with
    | some d, some ds => some (d :: ds)
    | _, _ => none

/-- Value of a most-significant-first digit-character list. -/
def parseDigits (l : List Char) : Option ℕ :=
  (digitVals l).map (fun ds => Nat.ofDigits 10 ds.reverse)

def notDot (c : Char) : Bool := c != '.'

/-- Unsigned decimal part of Rust `str::parse::<f64>`: digits with at most
one point and at least one digit overall ("1", "1.5", "1.", ".5"). -/
def parseDecCore (l : List Char) : Option ℚ :=
  let intChars := l.takeWhile notDot
  match l.dropWhile notDot with
  | [] =>
    match parseDigits intChars with
    | some m => if intChars.isEmpty then none else some (m : ℚ)
    | none => none
  | _ :: fracChars =>
    match parseDigits intChars, parseDigits fracChars with
    | some mi, some mf =>
      if intChars.isEmpty ∧ fracChars.isEmpty then none
      else some ((mi : ℚ) + (mf : ℚ) / (10 : ℚ) ^ fracChars.length)
    | _, _ => none

/-- Rust `str::parse::<f64>`, restricted to the plain-decimal fragment
(the exponent, `inf` and `NaN` forms denote values outside the rational
idealisation and are left unrecognised). -/
def parseF64 (s : String) : Option ℚ :=
  match s.toList with
  | '-' :: rest => (parseDecCore rest).map (fun q => -q)
  | '+' :: rest => parseDecCore rest
  | l => parseDecCore l

/-! ### Canonical textual rendering (`impl fmt::Display for Value`) -/

mutual

/-- src/value.rs `impl fmt::Display for Value`. -/
def display : Value → String
  | .Number n => fmtNum n
  | .String s => s
  | .Boolean b => if b then "true" else "false"
  | .Array elements => "[" ++ displayList elements ++ "]"
  | .Function _ _ => "<function>"
  | .Transformer _ _ => "<transformer>"
  | .Nil => "nil"

/-- The element loop of the `Display` Array arm: `", "`-separated. -/
def displayList : List Value → String
  | [] => ""
  | [v] => display v
  | v :: rest => display v ++ ", " ++ displayList rest

end

/-! ### Built-in transformers (interpreter.rs, `Expr::Apply` arm) -/

/-- Element rendering inside the `to_string` Array arm: a `String` element
is pushed raw, anything else through `Display`. -/
def toStringElem (v : Value) : String :=
  match v with
  | .String s => s
  | _ => display v

/-- The element loop of the `to_string` Array arm (no brackets). -/
def toStringArrayBody : List Value → String
  | [] => ""
  | [v] => toStringElem v
  | v :: rest => toStringElem v ++ ", " ++ toStringArrayBody rest

/-- Built-in transformer `to_string` (interpreter.rs lines 200-223). -/
def toStringB : Value → String
  | .Number n => fmtNum n
  | .String s => s
  | .Boolean b => if b then "true" else "false"
  | .Array arr => toStringArrayBody arr
  | .Function _ _ => "[Function]"
  | .Transformer _ _ => "[Transformer]"
  | .Nil => "nil"

/-- Built-in transformer `to_number` (interpreter.rs lines 224-250). -/
def toNumberB : Value → Value
  | .Number n => .Number n
  | .String s =>
    match parseF64 s with
    | some n => .Number n
    | none =>
      if s = "true" then .Number 1
      else if s = "false" then .Number 0
      else .Number 0
  | .Boolean b => .Number (if b then 1 else 0)
  | .Array _ => .Number 0
  | .Function _ _ => .Number 0
  | .Transformer _ _ => .Number 0
  | .Nil => .Number 0

/-- Built-in transformer `to_bool`. -/
def toBoolB : Value → Value
  | .Number n => .Boolean (decide (n ≠ 0))
  | .String s => .Boolean (!(s.isEmpty || s == "false" || s == "0"))
  | .Boolean b => .Boolean b
  | .Array arr => .Boolean (!arr.isEmpty)
  | .Function _ _ => .Boolean true
  | .Transformer _ _ => .Boolean true
  | .Nil => .Boolean false

/-- Built-in transformer `to_array`. -/
def toArrayB (v : Value) : Value :=
  match v with
  | .Array arr => .Array arr
  | _ => .Array [v]

/-- Built-in transformer `parse_number`. -/
def parseNumberB : Value → Value
  | .String s =>
    match parseF64 s with
    | some n => .Number n
    | none => .Number 0
  | .Number n => .Number n
  | _ => .Number 0

/-- Built-in transformer `parse_bool`. -/
def parseBoolB : Value → Value
  | .String s => .Boolean (s == "true" || s == "1" || s == "yes")
  | .Boolean b => .Boolean b
  | .Number n => .Boolean (decide (n ≠ 0))
  | .Array arr => .Boolean (!arr.isEmpty)
  | .Function _ _ => .Boolean true
  | .Transformer _ _ => .Boolean true
  | .Nil => .Boolean false

/-- One-level element rendering inside the `to_json` Array arm. -/
def toJsonElem : Value → String
  | .String s => "\"" ++ s ++ "\""
  | .Number n => fmtNum n
  | .Boolean b => if b then "true" else "false"
  | .Array _ => "[...]"
  | _ => "null"

/-- The element loop of the `to_json` Array arm (`","`-separated). -/
def toJsonArrayBody : List Value → String
  | [] => ""
  | [v] => toJsonElem v
  | v :: rest => toJsonElem v ++ "," ++ toJsonArrayBody rest

/-- Built-in transformer `to_json` (shallow rendering). -/
def toJsonB : Value → String
  | .String s => "\"" ++ s ++ "\""
  | .Number n => fmtNum n
  | .Boolean b => if b then "true" else "false"
  | .Array arr => "[" ++ toJsonArrayBody arr ++ "]"
  | .Function _ _ => "null"
  | .Transformer _ _ => "null"
  | .Nil => "null"

/-- The built-in arms of the `Expr::Apply` dispatch.  `some` exactly for
the seven built-in names (each Rust arm returns `Ok`), `none` sends the
apply to the user-transformer path. -/
def builtinTransformer (name : String) (v : Value) : Option Value :=
  match name with
  | "to_string" => some (.String (toStringB v))
  | "to_number" => some (toNumberB v)
  | "to_bool" => some (toBoolB v)
  | "to_array" => some (toArrayB v)
  | "parse_number" => some (parseNumberB v)
  | "parse_bool" => some (parseBoolB v)
  | "to_json" => some (.String (toJsonB v))
  | _ => none

/-! ### Binary and unary operator cores (`evaluate_binary` after both
operands are evaluated, `evaluate_unary` after its operand) -/

def invalidOperands (op : TokenType) : EvalErr :=
  .msg ("Invalid operands for operator: " ++ tokenTypeRepr op)

/-- The `match operator.token_type` body of `Interpreter::evaluate_binary`
(interpreter.rs lines 459-570), applied to the evaluated operands. -/
def applyBinOp (op : TokenType) (l r : Value) : Except EvalErr Value :=
  match op with
  | .Plus =>
    match l, r with
    | .Number a, .Number b => .ok (.Number (a + b))
    | .String a, .String b => .ok (.String (a ++ b))
    | .String a, _ => .ok (.String (a ++ display r))
    | _, .String b => .ok (.String (display l ++ b))
    | .Array a, .Array b => .ok (.Array (a ++ b))
    | _, _ => .error (invalidOperands op)
  | .Minus =>
    match l, r with
    | .Number a, .Number b => .ok (.Number (a - b))
    | _, _ => .error (invalidOperands op)
  | .Multiply =>
    match l, r with
    | .Number a, .Number b => .ok (.Number (a * b))
    | _, _ => .error (invalidOperands op)
  | .Divide =>
    match l, r with
    | .Number a, .Number b =>
      if b = 0 then .error (.msg "Division by zero") else .ok (.Number (a / b))
    | _, _ => .error (invalidOperands op)
  | .Modulo =>
    match l, r with
    | .Number a, .Number b =>
      if b = 0 then .error (.msg "Modulo by zero") else .ok (.Number (remEuclid a b))
    | _, _ => .error (invalidOperands op)
  | .LessThan =>
    match l, r with
    | .Number a, .Number b => .ok (.Boolean (decide (a < b)))
    | _, _ => .error (invalidOperands op)
  | .LessThanEqual =>
    match l, r with
    | .Number a, .Number b => .ok (.Boolean (decide (a ≤ b)))
    | _, _ => .error (invalidOperands op)
  | .GreaterThan =>
    match l, r with
    | .Number a, .Number b => .ok (.Boolean (decide (b < a)))
    | _, _ => .error (invalidOperands op)
  | .GreaterThanEqual =>
    match l, r with
    | .Number a, .Number b => .ok (.Boolean (decide (b ≤ a)))
    | _, _ => .error (invalidOperands op)
  | .EqualEqual =>
    match l, r with
    | .Number a, .Number b => .ok (.Boolean (decide (a = b)))
    | .String a, .String b => .ok (.Boolean (a == b))
    | .Boolean a, .Boolean b => .ok (.Boolean (a == b))
    | .Nil, .Nil => .ok (.Boolean true)
    | _, _ => .ok (.Boolean false)
  | .BangEqual =>
    match l, r with
    | .Number a, .Number b => .ok (.Boolean (decide (a ≠ b)))
    | .String a, .String b => .ok (.Boolean (a != b))
    | .Boolean a, .Boolean b => .ok (.Boolean (a != b))
    | .Nil, .Nil => .ok (.Boolean false)
    | _, _ => .ok (.Boolean true)
  | .And =>
    match l, r with
    | .Boolean a, .Boolean b => .ok (.Boolean (a && b))
    | _, _ => .error (invalidOperands op)
  | .Or =>
    match l, r with
    | .Boolean a, .Boolean b => .ok (.Boolean (a || b))
    | _, _ => .error (invalidOperands op)
  | other => .error (.msg ("Unknown operator: " ++ tokenTypeRepr other))

/-- The `match operator.token_type` body of `Interpreter::evaluate_unary`. -/
def applyUnOp (op : TokenType) (v : Value) : Except EvalErr Value :=
  match op with
  | .Minus =>
    match v with
    | .Number n => .ok (.Number (-n))
    | _ => .error (.msg ("Invalid operand for unary operator: " ++ tokenTypeRepr op))
  | .Not =>
    match v with
    | .Boolean b => .ok (.Boolean (!b))
    | _ => .error (.msg ("Invalid operand for unary operator: " ++ tokenTypeRepr op))
  | other => .error (.msg ("Unknown unary operator: " ++ tokenTypeRepr other))

/-- `if let Expr::Return { .. } = expr` — the syntactic check the body
loops of `call` and user-transformer apply make after each statement. -/
def isReturn : Expr → Bool
  | .Return _ => true
  | _ => false

/-- The per-character values a `for` over a string iterates
(`c.to_string()` for each char). -/
def stringChars (s : String) : List Value :=
  s.toList.map (fun c => Value.String (String.mk [c]))

/-- Decimal rendering of the index in the `Index out of bounds` message. -/
def natRepr (n : ℕ) : String := String.mk (natDigitChars n)

/-! ### The evaluator

`Interpreter::evaluate` and its helpers, as one fueled mutual block.
Fuel decreases on every call; `.error .fuel` models nontermination.
The evaluator threads a `State` in place of Rust's `&mut self`. -/

mutual

/-- `Interpreter::evaluate` (interpreter.rs lines 50-453, minus `Use`). -/
def eval : ℕ → Expr → State → Res
  | 0, _, _ => .error .fuel
  | n + 1, e, st =>
    match e with
    | .Number v => .ok (.Number v, st)
    | .String v => .ok (.String v, st)
    | .Boolean v => .ok (.Boolean v, st)
    | .Array elements =>
      match evalElems n elements st with
      | .ok (vs, st') => .ok (.Array vs, st')
      | .error err => .error err
    | .Variable name =>
      match envGet st.env name with
      | some v => .ok (v, st)
      | none => .error (.msg ("Undefined variable: " ++ name))
    | .Binary l op r =>
      match eval n l st with
      | .error err => .error err
      | .ok (lv, st₁) =>
        match eval n r st₁ with
        | .error err => .error err
        | .ok (rv, st₂) =>
          match applyBinOp op lv rv with
          | .ok v => .ok (v, st₂)
          | .error err => .error err
    | .Unary op r =>
      match eval n r st with
      | .error err => .error err
      | .ok (rv, st₁) =>
        match applyUnOp op rv with
        | .ok v => .ok (v, st₁)
        | .error err => .error err
    | .Assign name value =>
      match eval n value st with
      | .error err => .error err
      | .ok (v, st₁) =>
        if (envGet st₁.env name).isSome then
          match envAssign st₁.env name v with
          | some env' => .ok (v, { st₁ with env := env' })
          | none => .error (.msg ("Undefined variable '" ++ name ++ "'"))
        else
          .ok (v, { st₁ with env := envDefine st₁.env name v })
    | .Call callee arguments => evalCall n callee arguments st
    | .Function name params body =>
      .ok (.Function params body,
        { st with env := envDefine st.env name (.Function params body) })
    | .Return value =>
      match value with
      | some e' => eval n e' st
      | none => .ok (.Nil, st)
    | .Index object index =>
      match eval n object st with
      | .error err => .error err
      | .ok (objectVal, st₁) =>
        match eval n index st₁ with
        | .error err => .error err
        | .ok (indexVal, st₂) =>
          match objectVal, indexVal with
          | .Array elements, .Number i =>
            let idx := f64AsUsize i
            if h : idx < elements.length then
              .ok (elements.get ⟨idx, h⟩, st₂)
            else
              .error (.msg ("Index out of bounds: " ++ natRepr idx))
          | _, _ => .error (.msg "Cannot index non-array type")
    | .Block expressions => evalSeq n expressions st
    | .If condition thenBranch elseBranch =>
      match eval n condition st with
      | .error err => .error err
      | .ok (cv, st₁) =>
        match cv with
        | .Boolean true => eval n thenBranch st₁
        | .Boolean false =>
          match elseBranch with
          | some b => eval n b st₁
          | none => .ok (.Nil, st₁)
        | _ => .error (.msg "Condition must be a boolean value")
    | .For varName iterable body =>
      match eval n iterable st with
      | .error err => .error err
      | .ok (iterVal, st₁) =>
        match iterVal with
        | .Array elements => evalForElems n varName body elements .Nil st₁
        | .String s => evalForElems n varName body (stringChars s) .Nil st₁
        | _ => .error (.msg "Cannot iterate over non-iterable value")
    | .While condition body => evalWhile n condition body st
    | .Transformer name params body =>
      .ok (.Transformer params body,
        { st with env := envDefine st.env name (.Transformer params body) })
    | .Apply object transformer arguments =>
      match eval n object st with
      | .error err => .error err
      | .ok (objectVal, st₀) =>
        match builtinTransformer transformer objectVal with
        | some v => .ok (v, st₀)
        | none => evalApplyUser n object transformer arguments objectVal st₀
termination_by structural n e st => n

/-- The element loop of the `Expr::Array` arm. -/
def evalElems : ℕ → List Expr → State → Except EvalErr (List Value × State)
  | 0, _, _ => .error .fuel
  | _ + 1, [], st => .ok ([], st)
  | n + 1, e :: rest, st =>
    match eval n e st with
    | .error err => .error err
    | .ok (v, st') =>
      match evalElems n rest st' with
      | .error err => .error err
      | .ok (vs, st'') => .ok (v :: vs, st'')
termination_by structural n es st => n

/-- The `Expr::Block` loop: evaluate in order, keep the last value
(`Nil` for an empty block); no `Return` detection here. -/
def evalSeq : ℕ → List Expr → State → Res
  | 0, _, _ => .error .fuel
  | _ + 1, [], st => .ok (.Nil, st)
  | n + 1, e :: rest, st =>
    match eval n e st with
    | .error err => .error err
    | .ok (v, st') => if rest.isEmpty then .ok (v, st') else evalSeq n rest st'
termination_by structural n es st => n

/-- The body loop shared by `Interpreter::call` and user-transformer
apply: evaluate statements in order, breaking after a statement that is
syntactically a `Return`. -/
def runBody : ℕ → List Expr → State → Res
  | 0, _, _ => .error .fuel
  | _ + 1, [], st => .ok (.Nil, st)
  | n + 1, e :: rest, st =>
    match eval n e st with
    | .error err => .error err
    | .ok (v, st') =>
      if isReturn e then .ok (v, st')
      else if rest.isEmpty then .ok (v, st')
      else runBody n rest st'
termination_by structural n es st => n

/-- The parameter-binding loop of `call`/apply: pair parameters with
argument expressions positionally, evaluating each argument in the
caller's (threaded) state; missing arguments bind `Nil`, surplus
arguments are never evaluated. -/
def bindArgs : ℕ → Frame → List String → List Expr → State →
    Except EvalErr (Frame × State)
  | 0, _, _, _, _ => .error .fuel
  | _ + 1, acc, [], _, st => .ok (acc, st)
  | n + 1, acc, p :: ps, [], st => bindArgs n (insertFrame acc p .Nil) ps [] st
  | n + 1, acc, p :: ps, a :: args, st =>
    match eval n a st with
    | .error err => .error err
    | .ok (v, st') => bindArgs n (insertFrame acc p v) ps args st'
termination_by structural n acc ps args st => n

/-- `Interpreter::call` (interpreter.rs lines 591-695): built-ins
`print`, `input`, `range` are intercepted by name, everything else is
looked up and must be a `Function`. -/
def evalCall : ℕ → String → List Expr → State → Res
  | 0, _, _, _ => .error .fuel
  | n + 1, callee, arguments, st =>
    if callee = "print" then
      match arguments with
      | [a] =>
        match eval n a st with
        | .error err => .error err
        | .ok (v, st₁) =>
          let line := (match v with | .String s => s | _ => display v) ++ "\n"
          .ok (.Nil, { st₁ with output := st₁.output ++ [line] })
      | _ => .error (.msg "print() takes exactly 1 argument")
    else if callee = "input" then
      match arguments with
      | [a] =>
        match eval n a st with
        | .error err => .error err
        | .ok (v, st₁) =>
          match v with
          | .String prompt =>
            let st₂ := { st₁ with output := st₁.output ++ [prompt] }
            match st₂.stdin with
            | [] => .ok (.String "", st₂)
            | line :: rest => .ok (.String line, { st₂ with stdin := rest })
          | _ => .error (.msg "Argument to input() must be a string")
      | _ => .error (.msg "input() takes exactly 1 argument")
    else if callee = "range" then
      match arguments with
      | [a, b] =>
        match eval n a st with
        | .error err => .error err
        | .ok (av, st₁) =>
          match av with
          | .Number qa =>
            match eval n b st₁ with
            | .error err => .error err
            | .ok (bv, st₂) =>
              match bv with
              | .Number qb =>
                .ok (.Array (rangeArray (f64AsI32 qa) (f64AsI32 qb)), st₂)
              | _ => .error (.msg "Second argument to range() must be a number")
          | _ => .error (.msg "First argument to range() must be a number")
      | _ => .error (.msg "range() takes exactly 2 arguments")
    else
      match envGet st.env callee with
      | some (.Function params body) =>
        match bindArgs n [] params arguments st with
        | .error err => .error err
        | .ok (frame, st₁) =>
          match runBody n body { st₁ with env := frame :: st.env } with
          | .error err => .error err
          | .ok (v, st₂) => .ok (v, { st₂ with env := st₁.env })
      | _ => .error (.msg ("Undefined function '" ++ callee ++ "'"))
termination_by structural n callee arguments st => n

/-- The user-transformer path of the `Expr::Apply` arm (interpreter.rs
lines 338-388), entered after the object is evaluated and the name fails
the built-in dispatch. -/
def evalApplyUser : ℕ → Expr → String → List Expr → Value → State → Res
  | 0, _, _, _, _, _ => .error .fuel
  | n + 1, object, transformer, arguments, objectVal, st₀ =>
    match envGet st₀.env transformer with
    | some (.Transformer params body) =>
      match bindArgs n (insertFrame [] "applied" objectVal) params arguments st₀ with
      | .error err => .error err
      | .ok (frame, st₁) =>
        match runBody n body { st₁ with env := frame :: st₀.env } with
        | .error err => .error err
        | .ok (result, st₂) =>
          let st₃ := { st₂ with env := st₁.env }
          match object with
          | .Variable name =>
            match envAssign st₃.env name result with
            | some env' => .ok (result, { st₃ with env := env' })
            | none => .error (.msg ("Undefined variable '" ++ name ++ "'"))
          | _ => .ok (result, st₃)
    | _ => .error (.msg ("Undefined transformer '" ++ transformer ++ "'"))
termination_by structural n object transformer arguments objectVal st => n

/-- The per-element loop of the `Expr::For` arm: push a fresh frame
binding the loop variable, run the body, pop back to the (possibly
assigned-into) enclosing chain; the last body value is the result. -/
def evalForElems : ℕ → String → Expr → List Value → Value → State → Res
  | 0, _, _, _, _, _ => .error .fuel
  | _ + 1, _, _, [], acc, st => .ok (acc, st)
  | n + 1, varName, body, x :: xs, _, st =>
    match eval n body { st with env := insertFrame [] varName x :: st.env } with
    | .error err => .error err
    | .ok (v, st') =>
      match st'.env with
      | _ :: enclosing => evalForElems n varName body xs v { st' with env := enclosing }
      | [] => .error (.msg "enclosing environment missing")
termination_by structural n varName body xs acc st => n

/-- The `Expr::While` loop: condition and body run directly in the
current environment (no fresh frame); the body value is discarded and
the loop yields `Nil`. -/
def evalWhile : ℕ → Expr → Expr → State → Res
  | 0, _, _, _ => .error .fuel
  | n + 1, condition, body, st =>
    match eval n condition st with
    | .error err => .error err
    | .ok (cv, st₁) =>
      match cv with
      | .Boolean true =>
        match eval n body st₁ with
        | .error err => .error err
        | .ok (_, st₂) => evalWhile n condition body st₂
      | .Boolean false => .ok (.Nil, st₁)
      | _ => .error (.msg "Condition must be a boolean value")
termination_by structural n condition body st => n

end

/-! ## Theorems -/

/-- `fmodQ a b = b * (a / b - truncQ (a / b))` when `b ≠ 0`. -/
theorem fmodQ_eq_mul (a b : ℚ) (hb : b ≠ 0) :
    fmodQ a b = b * (a / b - (truncQ (a / b) : ℚ)) := by
  unfold fmodQ
  field_simp

/-- The Euclidean remainder lies in `[0, b)` for positive `b`
(exact rational arithmetic). -/
theorem remEuclid_mem_Ico (a b : ℚ) (hb : 0 < b) :
    0 ≤ remEuclid a b ∧ remEuclid a b < b := by
  have hbne : b ≠ 0 := ne_of_gt hb
  have hfmod := fmodQ_eq_mul a b hbne
  set q := a / b with hq
  unfold remEuclid
  rw [hfmod]
  unfold truncQ
  by_cases hneg : q < 0
  · simp only [hneg, if_true]
    have h1 : q ≤ (⌈q⌉ : ℚ) := Int.le_ceil q
    have h2 : (⌈q⌉ : ℚ) < q + 1 := Int.ceil_lt_add_one q
    have hle : b * (q - (⌈q⌉ : ℚ)) ≤ 0 := by nlinarith
    have hgt : -b < b * (q - (⌈q⌉ : ℚ)) := by nlinarith
    by_cases hr : b * (q - (⌈q⌉ : ℚ)) < 0
    · simp only [hr, if_true, abs_of_pos hb]
      constructor <;> linarith
    · simp only [hr, if_false]
      constructor <;> linarith
  · simp only [hneg, if_false]
    have h1 : (⌊q⌋ : ℚ) ≤ q := Int.floor_le q
    have h2 : q < (⌊q⌋ : ℚ) + 1 := Int.lt_floor_add_one q
    have hge : 0 ≤ b * (q - (⌊q⌋ : ℚ)) := by nlinarith
    have hlt : b * (q - (⌊q⌋ : ℚ)) < b := by nlinarith
    have hr : ¬ b * (q - (⌊q⌋ : ℚ)) < 0 := not_lt.mpr hge
    simp only [hr, if_false]
    exact ⟨hge, hlt⟩

/-- C6: on Number operands the `%` operator errors with "Modulo by zero"
exactly when the right operand is 0; otherwise it yields the Euclidean
remainder, which for `b > 0` lies in the half-open interval `[0, b)`. -/
theorem modulo_euclidean_range (a b : ℚ) (st : State) :
    (applyBinOp .Modulo (.Number a) (.Number b) = .error (.msg "Modulo by zero") ↔ b = 0) ∧
    (b ≠ 0 → applyBinOp .Modulo (.Number a) (.Number b) = .ok (.Number (remEuclid a b))) ∧
    (b ≠ 0 → eval 2 (.Binary (.Number a) .Modulo (.Number b)) st =
      .ok (.Number (remEuclid a b), st)) ∧
    (b = 0 → eval 2 (.Binary (.Number a) .Modulo (.Number b)) st =
      .error (.msg "Modulo by zero")) ∧
    (0 < b → 0 ≤ remEuclid a b ∧ remEuclid a b < b) := by
  refine ⟨?_, ?_, ?_, ?_, fun h => remEuclid_mem_Ico a b h⟩
  · constructor
    · intro h
      by_contra hb
      simp [applyBinOp, hb] at h
    · intro h
      simp [applyBinOp, h]
  · intro hb
    simp [applyBinOp, hb]
  · intro hb
    simp [eval, applyBinOp, hb]
  · intro hb
    simp [eval, applyBinOp, hb]

/-- Witness for `modulo_euclidean_range` at `a = -7`, `b = 3`. -/
theorem modulo_euclidean_range_witness :
    applyBinOp .Modulo (.Number (-7)) (.Number 3) = .ok (.Number (remEuclid (-7) 3)) ∧
    (0 ≤ remEuclid (-7) 3 ∧ remEuclid (-7) 3 < 3) :=
  ⟨(modulo_euclidean_range (-7) 3 ⟨[[]], [], []⟩).2.1 (by norm_num),
   (modulo_euclidean_range (-7) 3 ⟨[[]], [], []⟩).2.2.2.2 (by norm_num)⟩

/-- C7: on Number operands `+`, `-`, `*` always succeed, and `/` errors
with "Division by zero" exactly when the right operand is 0. -/
theorem arithmetic_closure_division_error (a b : ℚ) (st : State) :
    applyBinOp .Plus (.Number a) (.Number b) = .ok (.Number (a + b)) ∧
    applyBinOp .Minus (.Number a) (.Number b) = .ok (.Number (a - b)) ∧
    applyBinOp .Multiply (.Number a) (.Number b) = .ok (.Number (a * b)) ∧
    (applyBinOp .Divide (.Number a) (.Number b) = .error (.msg "Division by zero") ↔ b = 0) ∧
    (b ≠ 0 → applyBinOp .Divide (.Number a) (.Number b) = .ok (.Number (a / b))) ∧
    (b ≠ 0 →
      eval 2 (.Binary (.Number a) .Plus (.Number b)) st = .ok (.Number (a + b), st) ∧
      eval 2 (.Binary (.Number a) .Minus (.Number b)) st = .ok (.Number (a - b), st) ∧
      eval 2 (.Binary (.Number a) .Multiply (.Number b)) st = .ok (.Number (a * b), st) ∧
      eval 2 (.Binary (.Number a) .Divide (.Number b)) st = .ok (.Number (a / b), st)) := by
  refine ⟨by simp [applyBinOp], by simp [applyBinOp], by simp [applyBinOp], ?_, ?_, ?_⟩
  · constructor
    · intro h
      by_contra hb
      simp [applyBinOp, hb] at h
    · intro h
      simp [applyBinOp, h]
  · intro hb
    simp [applyBinOp, hb]
  · intro hb
    refine ⟨?_, ?_, ?_, ?_⟩ <;> simp [eval, applyBinOp, hb]

/-- Witness for `arithmetic_closure_division_error` at `a = 1`, `b = 2`. -/
theorem arithmetic_closure_division_error_witness :
    applyBinOp .Divide (.Number 1) (.Number 2) = .ok (.Number (1 / 2)) :=
  (arithmetic_closure_division_error 1 2 ⟨[[]], [], []⟩).2.2.2.2.1 (by norm_num)

/-- C1 counterexample: `to_string` does not produce the canonical §6
rendering.  On `[true]` it yields `"true"` (no brackets) while `Display`
yields `"[true]"`; on a Function it yields `"[Function]"`, not
`"<function>"`. -/
theorem to_string_not_canonical_cex :
    builtinTransformer "to_string" (.Array [.Boolean true]) = some (.String "true") ∧
    display (.Array [.Boolean true]) = "[true]" ∧
    ("true" : String) ≠ "[true]" ∧
    builtinTransformer "to_string" (.Function [] []) = some (.String "[Function]") ∧
    display (.Function [] []) = "<function>" ∧
    ("[Function]" : String) ≠ "<function>" := by
  refine ⟨rfl, rfl, by decide, rfl, rfl, by decide⟩

/-- Each array element is rendered by `to_string` exactly as `Display`
renders it (the raw-string shortcut coincides with `Display` on strings). -/
theorem toStringElem_eq_display (v : Value) : toStringElem v = display v := by
  cases v <;> rfl

theorem toStringArrayBody_eq_displayList (es : List Value) :
    toStringArrayBody es = displayList es := by
  induction es with
  | nil => rfl
  | cons v rest ih =>
    cases rest with
    | nil => simpa [toStringArrayBody, displayList] using toStringElem_eq_display v
    | cons w t =>
      show toStringElem v ++ ", " ++ toStringArrayBody (w :: t) =
        display v ++ ", " ++ displayList (w :: t)
      rw [toStringElem_eq_display v, ih]

/-- C1 (amended): `to_string` matches the canonical rendering on Number,
String, Boolean and Nil, but renders an Array as its elements'
canonical renderings joined by `", "` without the enclosing brackets,
a Function as `"[Function]"` and a Transformer as `"[Transformer]"`. -/
theorem to_string_rendering :
    (∀ q : ℚ, toStringB (.Number q) = display (.Number q)) ∧
    (∀ s, toStringB (.String s) = display (.String s)) ∧
    (∀ b, toStringB (.Boolean b) = display (.Boolean b)) ∧
    toStringB .Nil = display .Nil ∧
    (∀ es, toStringB (.Array es) = displayList es ∧
      display (.Array es) = "[" ++ displayList es ++ "]") ∧
    (∀ ps bd, toStringB (.Function ps bd) = "[Function]") ∧
    (∀ ps bd, toStringB (.Transformer ps bd) = "[Transformer]") := by
  refine ⟨fun _ => rfl, fun _ => rfl, fun _ => rfl, rfl, ?_, fun _ _ => rfl, fun _ _ => rfl⟩
  intro es
  exact ⟨toStringArrayBody_eq_displayList es, rfl⟩

/-- C5: `and` and `or` evaluate both operands unconditionally (an error
in the right operand surfaces even when the left one already decides the
result), return the strict Boolean conjunction/disjunction on two
Booleans, and reject any non-Boolean operand. -/
theorem and_or_strict_boolean (n : ℕ) (l r : Expr) (st : State) (lv : Value) (st₁ : State)
    (hl : eval n l st = .ok (lv, st₁)) :
    (∀ err, eval n r st₁ = .error err →
      eval (n + 1) (.Binary l .And r) st = .error err ∧
      eval (n + 1) (.Binary l .Or r) st = .error err) ∧
    (∀ rv st₂, eval n r st₁ = .ok (rv, st₂) →
      (∀ bl br, lv = .Boolean bl → rv = .Boolean br →
        eval (n + 1) (.Binary l .And r) st = .ok (.Boolean (bl && br), st₂) ∧
        eval (n + 1) (.Binary l .Or r) st = .ok (.Boolean (bl || br), st₂)) ∧
      (((∀ bl, lv ≠ .Boolean bl) ∨ (∀ br, rv ≠ .Boolean br)) →
        eval (n + 1) (.Binary l .And r) st = .error (invalidOperands .And) ∧
        eval (n + 1) (.Binary l .Or r) st = .error (invalidOperands .Or))) := by
  constructor
  · intro err herr
    constructor <;> simp [eval, hl, herr]
  · intro rv st₂ hr
    constructor
    · rintro bl br rfl rfl
      constructor <;> simp [eval, hl, hr, applyBinOp]
    · intro hnb
      rcases hnb with hnb | hnb
      · constructor <;>
          (cases lv <;> simp [eval, hl, hr, applyBinOp] <;> exact absurd rfl (hnb _))
      · constructor <;>
          (cases lv <;> cases rv <;> simp [eval, hl, hr, applyBinOp] <;> exact absurd rfl (hnb _))

/-- Witness for `and_or_strict_boolean`: `false and z` with `z` unbound
still reports the right operand's error. -/
theorem and_or_strict_boolean_witness :
    eval 2 (.Binary (.Boolean false) .And (.Variable "z")) ⟨[[]], [], []⟩ =
      .error (.msg "Undefined variable: z") :=
  ((and_or_strict_boolean 1 (.Boolean false) (.Variable "z") ⟨[[]], [], []⟩
    (.Boolean false) ⟨[[]], [], []⟩ rfl).1 (.msg "Undefined variable: z") rfl).1

/-- C3: a call body short-circuits at a statement exactly when that
statement is syntactically a `Return` at the top level of the body list
(the remaining statements are then never evaluated); a non-`Return`
statement always passes control to the rest of the body; and evaluating
a `Return` node itself merely yields its payload (Nil if absent) as an
ordinary value, so a `Return` nested in another construct cannot exit
the call. -/
theorem return_top_level_short_circuit :
    (∀ (n : ℕ) (o : Option Expr) (rest : List Expr) (st : State),
      runBody (n + 1) (.Return o :: rest) st = eval n (.Return o) st) ∧
    (∀ (n : ℕ) (e : Expr) (rest : List Expr) (st : State),
      isReturn e = false → rest ≠ [] →
      runBody (n + 1) (e :: rest) st =
        match eval n e st with
        | .ok (_, st') => runBody n rest st'
        | .error err => .error err) ∧
    (∀ (n : ℕ) (e : Expr) (st : State), eval (n + 1) (.Return (some e)) st = eval n e st) ∧
    (∀ (n : ℕ) (st : State), eval (n + 1) (.Return none) st = .ok (.Nil, st)) := by
  refine ⟨?_, ?_, fun n e st => by simp [eval], fun n st => by simp [eval]⟩
  · intro n o rest st
    rcases h : eval n (.Return o) st with err | ⟨v, st'⟩ <;> simp [runBody, h, isReturn]
  · intro n e rest st hnotret hne
    rcases h : eval n e st with err | ⟨v, st'⟩ <;>
      simp [runBody, h, hnotret, List.isEmpty_iff, hne]

/-- Witness for `return_top_level_short_circuit`: a two-statement body
with no top-level `Return` evaluates both statements. -/
theorem return_top_level_short_circuit_witness :
    runBody 2 [Expr.Number 1, Expr.Number 2] ⟨[[]], [], []⟩ =
      runBody 1 [Expr.Number 2] ⟨[[]], [], []⟩ := by
  have h := return_top_level_short_circuit.2.1 1 (.Number 1) [.Number 2]
    ⟨[[]], [], []⟩ rfl (by simp)
  exact h

/-- C10: indexing an Array with a Number errors with "Index out of
bounds" exactly when the Rust saturating `f64 as usize` conversion of the
index reaches the array length; in particular a negative index converts
to 0 and returns the first element of any non-empty array. -/
theorem index_saturating_bounds (n : ℕ) (object index : Expr) (st : State)
    (elements : List Value) (st₁ : State) (q : ℚ) (st₂ : State)
    (hobj : eval n object st = .ok (.Array elements, st₁))
    (hidx : eval n index st₁ = .ok (.Number q, st₂)) :
    (∀ h : f64AsUsize q < elements.length,
      eval (n + 1) (.Index object index) st = .ok (elements.get ⟨f64AsUsize q, h⟩, st₂)) ∧
    (elements.length ≤ f64AsUsize q →
      eval (n + 1) (.Index object index) st =
        .error (.msg ("Index out of bounds: " ++ natRepr (f64AsUsize q)))) ∧
    (q < 0 → ∀ v tl, elements = v :: tl →
      eval (n + 1) (.Index object index) st = .ok (v, st₂)) := by
  refine ⟨?_, ?_, ?_⟩
  · intro h
    simp [eval, hobj, hidx, h]
  · intro h
    simp [eval, hobj, hidx, Nat.not_lt.mpr h]
  · rintro hq v tl rfl
    have hzero : f64AsUsize q = 0 := by simp [f64AsUsize, hq]
    have h : f64AsUsize q < (v :: tl).length := by simp [hzero]
    simp [eval, hobj, hidx, h, hzero]

/-- Witness for `index_saturating_bounds`: `[10, 20][-3]` yields `10`. -/
theorem index_saturating_bounds_witness :
    eval 5 (.Index (.Array [.Number 10, .Number 20]) (.Number (-3))) ⟨[[]], [], []⟩ =
      .ok (.Number 10, ⟨[[]], [], []⟩) :=
  (index_saturating_bounds 4 (.Array [.Number 10, .Number 20]) (.Number (-3))
    ⟨[[]], [], []⟩ [.Number 10, .Number 20] ⟨[[]], [], []⟩ (-3) ⟨[[]], [], []⟩
    rfl rfl).2.2 (by norm_num) (.Number 10) [.Number 20] rfl

/-- C8 counterexample: `range(1.5, 2.9)` returns `[1]` — its first
element is `1`, not the untruncated start `1.5`, and its length `1`
differs from `max(0, 2.9 - 1.5) = 1.4`. -/
theorem range_noninteger_cex :
    evalCall 2 "range" [.Number (3 / 2), .Number (29 / 10)] ⟨[[]], [], []⟩ =
      .ok (.Array [.Number 1], ⟨[[]], [], []⟩) ∧
    Value.Number 1 ≠ Value.Number (3 / 2) ∧
    ((1 : ℚ) ≠ max 0 (29 / 10 - 3 / 2)) := by
  refine ⟨?_, ?_, by norm_num⟩
  · have h1 : f64AsI32 (3 / 2) = 1 := by norm_num [f64AsI32, truncQ, i32Min, i32Max]
    have h2 : f64AsI32 (29 / 10) = 2 := by norm_num [f64AsI32, truncQ, i32Min, i32Max]
    have hr : rangeArray 1 2 = [.Number 1] := by norm_num [rangeArray, List.range_succ]
    have hmain : evalCall 2 "range" [.Number (3 / 2), .Number (29 / 10)] ⟨[[]], [], []⟩ =
        .ok (.Array (rangeArray (f64AsI32 (3 / 2)) (f64AsI32 (29 / 10))), ⟨[[]], [], []⟩) := by
      simp [evalCall, eval]
    rw [h1, h2, hr] at hmain
    exact hmain
  · intro h
    injection h with h'
    exact absurd h' (by norm_num)

/-- C8 (amended): `range(a, b)` truncates both arguments with the
saturating `f64 as i32` cast and yields the Numbers from `trunc(a)`
(inclusive) to `trunc(b)` (exclusive): the length is
`max 0 (trunc(b) - trunc(a))` and element `i` is `trunc(a) + i`; for
integer arguments within the `i32` range this is `max 0 (b - a)` and
`a + i` as the original claim stated.  Any argument count other than 2
is an arity error. -/
theorem range_truncation_semantics (n : ℕ) (ea eb : Expr) (st st₁ st₂ : State) (a b : ℚ)
    (ha : eval n ea st = .ok (.Number a, st₁))
    (hb : eval n eb st₁ = .ok (.Number b, st₂)) :
    evalCall (n + 1) "range" [ea, eb] st =
      .ok (.Array (rangeArray (f64AsI32 a) (f64AsI32 b)), st₂) ∧
    ((rangeArray (f64AsI32 a) (f64AsI32 b)).length : ℤ) =
      max 0 (f64AsI32 b - f64AsI32 a) ∧
    (∀ (i : ℕ) (h : i < (rangeArray (f64AsI32 a) (f64AsI32 b)).length),
      (rangeArray (f64AsI32 a) (f64AsI32 b)).get ⟨i, h⟩ =
        .Number ((f64AsI32 a : ℚ) + (i : ℚ))) ∧
    (∀ za zb : ℤ, a = (za : ℚ) → b = (zb : ℚ) →
      i32Min ≤ za → za ≤ i32Max → i32Min ≤ zb → zb ≤ i32Max →
      ((rangeArray (f64AsI32 a) (f64AsI32 b)).length : ℚ) = max 0 (b - a) ∧
      (∀ (i : ℕ) (h : i < (rangeArray (f64AsI32 a) (f64AsI32 b)).length),
        (rangeArray (f64AsI32 a) (f64AsI32 b)).get ⟨i, h⟩ = .Number (a + (i : ℚ)))) ∧
    (∀ args : List Expr, args.length ≠ 2 →
      evalCall (n + 1) "range" args st =
        .error (.msg "range() takes exactly 2 arguments")) := by
  have hlen : ∀ s e : ℤ, ((rangeArray s e).length : ℤ) = max 0 (e - s) := by
    intro s e
    rw [rangeArray, List.length_map, List.length_range, Int.toNat_eq_max, max_comm]
  have hget : ∀ (s e : ℤ) (i : ℕ) (h : i < (rangeArray s e).length),
      (rangeArray s e).get ⟨i, h⟩ = .Number ((s : ℚ) + (i : ℚ)) := by
    intro s e i h
    simp only [rangeArray, List.get_eq_getElem, List.getElem_map, List.getElem_range]
  have htrunc : ∀ z : ℤ, i32Min ≤ z → z ≤ i32Max → f64AsI32 (z : ℚ) = z := by
    intro z h1 h2
    have hz : truncQ (z : ℚ) = z := by
      unfold truncQ
      by_cases hz : (z : ℚ) < 0 <;> simp [hz]
    simp only [f64AsI32, hz]
    omega
  refine ⟨by simp [evalCall, ha, hb], hlen _ _, hget _ _, ?_, ?_⟩
  · rintro za zb rfl rfl h1 h2 h3 h4
    rw [htrunc za h1 h2, htrunc zb h3 h4]
    constructor
    · have hc := hlen za zb
      have hcast : ((rangeArray za zb).length : ℚ) = ((max 0 (zb - za) : ℤ) : ℚ) := by
        exact_mod_cast congrArg (fun z : ℤ => (z : ℚ)) hc
      rw [hcast]
      push_cast
      rfl
    · intro i h
      exact hget za zb i h
  · intro args hargs
    match args with
    | [] => rfl
    | [x] => rfl
    | [x, y] => exact absurd rfl hargs
    | x :: y :: z :: t => rfl

/-- Witness for `range_truncation_semantics` at `range(1, 4)`. -/
theorem range_truncation_semantics_witness :
    evalCall 2 "range" [.Number 1, .Number 4] ⟨[[]], [], []⟩ =
      .ok (.Array (rangeArray (f64AsI32 1) (f64AsI32 4)), ⟨[[]], [], []⟩) :=
  (range_truncation_semantics 1 (.Number 1) (.Number 4) ⟨[[]], [], []⟩ ⟨[[]], [], []⟩
    ⟨[[]], [], []⟩ 1 4 rfl rfl).1

/-! ### Round trip of number rendering and parsing (for C9) -/

/-- Rationals with a finite decimal expansion — the idealised image of
the finite `f64` values (every dyadic rational is of this form). -/
def FiniteDecimal (q : ℚ) : Prop := ∃ (z : ℤ) (k : ℕ), q = (z : ℚ) / 10 ^ k

theorem digitVal?_digitChar {d : ℕ} (h : d < 10) :
    digitVal? (digitChar d) = some d := by
  interval_cases d <;> rfl

theorem notDot_digitChar {d : ℕ} (h : d < 10) : notDot (digitChar d) = true := by
  interval_cases d <;> rfl

theorem digitChar_ne_sign {d : ℕ} (h : d < 10) :
    digitChar d ≠ '-' ∧ digitChar d ≠ '+' := by
  interval_cases d <;> exact ⟨by decide, by decide⟩

theorem digitVals_map_digitChar {l : List ℕ} (h : ∀ d ∈ l, d < 10) :
    digitVals (l.map digitChar) = some l := by
  induction l with
  | nil => rfl
  | cons d t ih =>
    have hd : d < 10 := h d (List.mem_cons_self d t)
    have ht := ih (fun x hx => h x (List.mem_cons_of_mem d hx))
    simp [digitVals, digitVal?_digitChar hd, ht]

theorem parseDigits_map_digitChar {l : List ℕ} (h : ∀ d ∈ l, d < 10) :
    parseDigits (l.map digitChar) = some (Nat.ofDigits 10 l.reverse) := by
  simp [parseDigits, digitVals_map_digitChar h]

theorem takeWhile_notDot_all {l : List Char} (h : ∀ c ∈ l, notDot c = true) :
    l.takeWhile notDot = l ∧ l.dropWhile notDot = [] := by
  induction l with
  | nil => exact ⟨rfl, rfl⟩
  | cons c t ih =>
    have hc : notDot c = true := h c (List.mem_cons_self c t)
    have ht := ih (fun x hx => h x (List.mem_cons_of_mem c hx))
    simp [List.takeWhile_cons, List.dropWhile_cons, hc, ht.1, ht.2]

theorem takeWhile_notDot_append {l rest : List Char} (h : ∀ c ∈ l, notDot c = true) :
    (l ++ '.' :: rest).takeWhile notDot = l ∧
    (l ++ '.' :: rest).dropWhile notDot = '.' :: rest := by
  induction l with
  | nil => exact ⟨rfl, rfl⟩
  | cons c t ih =>
    have hc : notDot c = true := h c (List.mem_cons_self c t)
    have ht := ih (fun x hx => h x (List.mem_cons_of_mem c hx))
    simp [List.takeWhile_cons, List.dropWhile_cons, hc, ht.1, ht.2]

theorem ofDigits_replicate_zero (b n : ℕ) :
    Nat.ofDigits b (List.replicate n 0) = 0 := by
  induction n with
  | zero => rfl
  | succ n ih => simp [List.replicate_succ, Nat.ofDigits_cons, ih]

theorem parseDigits_natDigitChars (m : ℕ) :
    parseDigits (natDigitChars m) = some m := by
  by_cases hm : m = 0
  · subst hm
    rfl
  · rw [natDigitChars, if_neg hm,
      parseDigits_map_digitChar (fun d hd =>
        Nat.digits_lt_base (by norm_num) (List.mem_reverse.mp hd)),
      List.reverse_reverse, Nat.ofDigits_digits]

theorem natDigitChars_all_digits (m : ℕ) :
    ∀ c ∈ natDigitChars m, ∃ d, d < 10 ∧ c = digitChar d := by
  intro c hc
  unfold natDigitChars at hc
  by_cases hm : m = 0
  · simp [hm] at hc
    exact ⟨0, by norm_num, by simp [hc, digitChar]⟩
  · rw [if_neg hm] at hc
    obtain ⟨d, hd, rfl⟩ := List.mem_map.mp hc
    exact ⟨d, Nat.digits_lt_base (by norm_num) (List.mem_reverse.mp hd), rfl⟩

theorem parseDecCore_natDigitChars (m : ℕ) :
    parseDecCore (natDigitChars m) = some (m : ℚ) := by
  have hall : ∀ c ∈ natDigitChars m, notDot c = true := by
    intro c hc
    obtain ⟨d, hd, rfl⟩ := natDigitChars_all_digits m c hc
    exact notDot_digitChar hd
  have htd := takeWhile_notDot_all hall
  have hne : (natDigitChars m).isEmpty = false := by
    unfold natDigitChars
    by_cases hm : m = 0
    · simp [hm]
    · rw [if_neg hm]
      simp [List.isEmpty_iff, hm, Nat.digits_ne_nil_iff_ne_zero]
  simp only [parseDecCore, htd.1, htd.2, parseDigits_natDigitChars m, hne]
  rfl

theorem parseDecCore_fracChars (m k : ℕ) (hk : 1 ≤ k) :
    parseDecCore (fracChars m k) = some ((m : ℚ) / 10 ^ k) := by
  set ds := Nat.digits 10 m with hds
  set padded := ds ++ List.replicate (k + 1 - ds.length) 0 with hpadded
  set B := padded.reverse with hB
  have hpadlen : k + 1 ≤ padded.length := by
    simp only [hpadded, List.length_append, List.length_replicate]
    omega
  have hBlen : k + 1 ≤ B.length := by simpa [hB] using hpadlen
  have hBdig : ∀ d ∈ B, d < 10 := by
    intro d hd
    rw [hB, List.mem_reverse, hpadded, List.mem_append] at hd
    rcases hd with hd | hd
    · exact Nat.digits_lt_base (by norm_num) hd
    · rw [List.eq_of_mem_replicate hd]
      norm_num
  set I := B.take (B.length - k) with hI
  set F := B.drop (B.length - k) with hF
  have hIF : B = I ++ F := (List.take_append_drop _ B).symm
  have hIlen : I.length = B.length - k := by
    rw [hI, List.length_take]
    omega
  have hFlen : F.length = k := by
    rw [hF, List.length_drop]
    omega
  have hIdig : ∀ d ∈ I, d < 10 := fun d hd => hBdig d (hIF ▸ List.mem_append_left F hd)
  have hFdig : ∀ d ∈ F, d < 10 := fun d hd => hBdig d (hIF ▸ List.mem_append_right I hd)
  have hchars : fracChars m k = I.map digitChar ++ '.' :: F.map digitChar := by
    rw [fracChars]
    simp only [← hds, ← hpadded, ← hB, ← hI, ← hF, List.length_map]
    rw [← List.map_take, ← List.map_drop]
  have hInotdot : ∀ c ∈ I.map digitChar, notDot c = true := by
    intro c hc
    obtain ⟨d, hd, rfl⟩ := List.mem_map.mp hc
    exact notDot_digitChar (hIdig d hd)
  have htd := @takeWhile_notDot_append (I.map digitChar) (F.map digitChar) hInotdot
  have hIne : (I.map digitChar).isEmpty = false := by
    simp [List.isEmpty_iff, hIlen, List.length_map, ← List.length_eq_zero]
    omega
  have hsum : Nat.ofDigits 10 F.reverse + 10 ^ k * Nat.ofDigits 10 I.reverse = m := by
    have h1 : Nat.ofDigits 10 padded = m := by
      rw [hpadded, Nat.ofDigits_append, hds, Nat.ofDigits_digits,
        ofDigits_replicate_zero, Nat.mul_zero, Nat.add_zero]
    have h2 : padded = F.reverse ++ I.reverse := by
      rw [← List.reverse_append, ← hIF, hB, List.reverse_reverse]
    rw [h2, Nat.ofDigits_append, List.length_reverse, hFlen] at h1
    exact_mod_cast h1
  rw [hchars]
  simp only [parseDecCore, htd.1, htd.2,
    parseDigits_map_digitChar hIdig, parseDigits_map_digitChar hFdig, hIne]
  have hmain : (((Nat.ofDigits 10 I.reverse : ℕ) : ℚ)) +
      (((Nat.ofDigits 10 F.reverse : ℕ) : ℚ)) / 10 ^ (F.map digitChar).length =
      (m : ℚ) / 10 ^ k := by
    rw [List.length_map, hFlen]
    have h10 : ((10 : ℚ) ^ k) ≠ 0 := by positivity
    field_simp
    have := congrArg (fun n : ℕ => (n : ℚ)) hsum
    push_cast at this
    push_cast
    linarith [this]
  rw [if_neg (by simp : ¬(false = true ∧ (List.map digitChar F).isEmpty = true)), hmain]

theorem dvd_pow10_self {d : ℕ} (hd0 : d ≠ 0) {j : ℕ} (h : d ∣ 10 ^ j) :
    d ∣ 10 ^ d := by
  have h2 : d ∣ 2 ^ j * 5 ^ j := by
    rw [← Nat.mul_pow]
    exact h
  obtain ⟨d₁, d₂, hd₁, hd₂, hprod⟩ := exists_dvd_and_dvd_of_dvd_mul h2
  obtain ⟨α, hα, rfl⟩ := (Nat.dvd_prime_pow Nat.prime_two).mp hd₁
  obtain ⟨β, hβ, rfl⟩ := (Nat.dvd_prime_pow Nat.prime_five).mp hd₂
  have hαd : α ≤ d := by
    have h1 : 2 ^ α ≤ d := Nat.le_of_dvd (Nat.pos_of_ne_zero hd0) ⟨5 ^ β, hprod⟩
    have h2 := Nat.lt_two_pow α
    omega
  have hβd : β ≤ d := by
    have h1 : 5 ^ β ≤ d := Nat.le_of_dvd (Nat.pos_of_ne_zero hd0)
      ⟨2 ^ α, by rw [hprod, Nat.mul_comm]⟩
    have h2 := Nat.lt_two_pow β
    have h3 : 2 ^ β ≤ 5 ^ β := Nat.pow_le_pow_left (by norm_num) β
    omega
  have hdvd2 : 2 ^ α * 5 ^ β ∣ 10 ^ d := by
    rw [show (10 : ℕ) ^ d = 2 ^ d * 5 ^ d by rw [← Nat.mul_pow]]
    exact Nat.mul_dvd_mul (Nat.pow_dvd_pow 2 hαd) (Nat.pow_dvd_pow 5 hβd)
  simpa [← hprod] using hdvd2

theorem minPow10_dvd {d : ℕ} (hd0 : d ≠ 0) {j : ℕ} (h : d ∣ 10 ^ j) :
    d ∣ 10 ^ minPow10 d := by
  have hex : ∃ x, x ∈ List.range (d + 1) ∧ (decide (d ∣ 10 ^ x)) = true := by
    refine ⟨d, List.mem_range.mpr (by omega), ?_⟩
    simpa using dvd_pow10_self hd0 h
  have hsome : ((List.range (d + 1)).find? (fun k => decide (d ∣ 10 ^ k))).isSome :=
    List.find?_isSome.mpr hex
  obtain ⟨k₀, hk₀⟩ := Option.isSome_iff_exists.mp hsome
  have hdvd : d ∣ 10 ^ k₀ := by simpa using List.find?_some hk₀
  rw [minPow10, hk₀]
  exact hdvd

theorem fracChars_head (m k : ℕ) (hk : 1 ≤ k) :
    ∃ (d : ℕ) (cs : List Char), d < 10 ∧ fracChars m k = digitChar d :: cs := by
  set ds := Nat.digits 10 m with hds
  set padded := ds ++ List.replicate (k + 1 - ds.length) 0 with hpadded
  set B := padded.reverse with hB
  have hpadlen : k + 1 ≤ padded.length := by
    simp only [hpadded, List.length_append, List.length_replicate]
    omega
  have hBlen : k + 1 ≤ B.length := by simpa [hB] using hpadlen
  have hBdig : ∀ d ∈ B, d < 10 := by
    intro d hd
    rw [hB, List.mem_reverse, hpadded, List.mem_append] at hd
    rcases hd with hd | hd
    · exact Nat.digits_lt_base (by norm_num) hd
    · rw [List.eq_of_mem_replicate hd]
      norm_num
  set I := B.take (B.length - k) with hI
  have hIlen : I.length = B.length - k := by
    rw [hI, List.length_take]
    omega
  have hchars : fracChars m k =
      I.map digitChar ++ '.' :: (B.drop (B.length - k)).map digitChar := by
    rw [fracChars]
    simp only [← hds, ← hpadded, ← hB, ← hI, List.length_map]
    rw [← List.map_take, ← List.map_drop]
  cases hIc : I with
  | nil =>
    exfalso
    rw [hIc] at hIlen
    simp at hIlen
    omega
  | cons d t =>
    refine ⟨d, t.map digitChar ++ '.' :: (B.drop (B.length - k)).map digitChar, ?_, ?_⟩
    · have hdI : d ∈ I := by
        rw [hIc]
        exact List.mem_cons_self d t
      rw [hI] at hdI
      exact hBdig d (List.take_subset _ _ hdI)
    · rw [hchars, hIc]
      simp

theorem fmtBody_head (a : ℚ) (hden : a.den ≠ 1 → 1 ≤ minPow10 a.den) :
    ∃ (d : ℕ) (cs : List Char), d < 10 ∧ fmtBody a = digitChar d :: cs := by
  rw [fmtBody]
  by_cases h1 : a.den = 1
  · rw [if_pos h1]
    unfold natDigitChars
    by_cases hm : a.num.toNat = 0
    · rw [if_pos hm]
      exact ⟨0, [], by norm_num, by decide⟩
    · rw [if_neg hm]
      cases hrev : (Nat.digits 10 a.num.toNat).reverse with
      | nil =>
        exfalso
        rw [List.reverse_eq_nil_iff, Nat.digits_eq_nil_iff_eq_zero] at hrev
        exact hm hrev
      | cons d t =>
        have hdm : d ∈ Nat.digits 10 a.num.toNat := by
          rw [← List.mem_reverse, hrev]
          exact List.mem_cons_self d t
        exact ⟨d, t.map digitChar, Nat.digits_lt_base (by norm_num) hdm, by simp⟩
  · rw [if_neg h1]
    exact fracChars_head _ _ (hden h1)

theorem minPow10_pos {a : ℚ} (h1 : a.den ≠ 1) {j : ℕ} (hdvd : a.den ∣ 10 ^ j) :
    1 ≤ minPow10 a.den := by
  by_contra h
  push_neg at h
  have hk0 : minPow10 a.den = 0 := by omega
  have := minPow10_dvd a.den_nz hdvd
  rw [hk0, pow_zero, Nat.dvd_one] at this
  exact h1 this

theorem fmtBody_parse (a : ℚ) (ha : 0 ≤ a) {j : ℕ} (hdvd : a.den ∣ 10 ^ j) :
    parseDecCore (fmtBody a) = some a := by
  by_cases h1 : a.den = 1
  · rw [fmtBody, if_pos h1, parseDecCore_natDigitChars]
    have hnum : (a.num : ℚ) = a := (Rat.den_eq_one_iff a).mp h1
    have hnn : 0 ≤ a.num := Rat.num_nonneg.mpr ha
    congr 1
    rw [← hnum]
    exact_mod_cast congrArg (Int.cast : ℤ → ℚ) (Int.toNat_of_nonneg hnn)
  · set k := minPow10 a.den with hkdef
    have hdvdk : a.den ∣ 10 ^ k := minPow10_dvd a.den_nz hdvd
    have hk1 : 1 ≤ k := minPow10_pos h1 hdvd
    obtain ⟨c, hc⟩ := hdvdk
    have hden' : ((a.den : ℚ)) ≠ 0 := by
      exact_mod_cast a.den_nz
    have hc' : ((10 : ℚ) ^ k) = (a.den : ℚ) * (c : ℚ) := by
      exact_mod_cast congrArg (Nat.cast : ℕ → ℚ) hc
    have hnum : (a.num : ℚ) = a * (a.den : ℚ) := by
      have hdd := Rat.num_div_den a
      rw [div_eq_iff hden'] at hdd
      exact hdd
    have hval : a * (10 : ℚ) ^ k = ((a.num * (c : ℤ) : ℤ) : ℚ) := by
      rw [hc']
      push_cast
      calc a * ((a.den : ℚ) * (c : ℚ)) = (a * (a.den : ℚ)) * (c : ℚ) := by ring
        _ = (a.num : ℚ) * (c : ℚ) := by rw [← hnum]
    have hnumnn : 0 ≤ a.num * (c : ℤ) :=
      mul_nonneg (Rat.num_nonneg.mpr ha) (by positivity)
    have hm2 : (a * (10 : ℚ) ^ k).num = a.num * (c : ℤ) := by
      rw [hval, Rat.num_intCast]
    have hfin : ((a * (10 : ℚ) ^ k).num.toNat : ℚ) = a * 10 ^ k := by
      have h3 : (((a * (10 : ℚ) ^ k).num.toNat : ℤ) : ℚ) = ((a.num * (c : ℤ) : ℤ) : ℚ) := by
        rw [hm2, Int.toNat_of_nonneg hnumnn]
      rw [← Int.cast_natCast, h3, ← hval]
    rw [fmtBody, if_neg h1, ← hkdef, parseDecCore_fracChars _ _ hk1, hfin]
    congr 1
    have h10 : ((10 : ℚ) ^ k) ≠ 0 := by positivity
    field_simp

theorem parseF64_mk_cons {c : Char} {cs : List Char} (h1 : c ≠ '-') (h2 : c ≠ '+') :
    parseF64 (String.mk (c :: cs)) = parseDecCore (c :: cs) := by
  have hl : (String.mk (c :: cs)).toList = c :: cs := rfl
  unfold parseF64
  rw [hl]
  split
  · next rest heq =>
    injection heq with hh _
    exact absurd hh h1
  · next rest heq =>
    injection heq with hh _
    exact absurd hh h2
  · rfl

theorem parseF64_mk_neg (cs : List Char) :
    parseF64 (String.mk ('-' :: cs)) = (parseDecCore cs).map (fun x => -x) := rfl

theorem parseF64_fmtNum (q : ℚ) (h : FiniteDecimal q) : parseF64 (fmtNum q) = some q := by
  obtain ⟨z, k0, hq0⟩ := h
  have hdvd : q.den ∣ 10 ^ k0 := by
    have h1 : (((Rat.divInt z (10 ^ k0 : ℤ)).den : ℤ)) ∣ (10 ^ k0 : ℤ) :=
      Rat.den_dvd z (10 ^ k0)
    have h2 : Rat.divInt z (10 ^ k0 : ℤ) = q := by
      rw [Rat.divInt_eq_div, hq0]
      push_cast
      rfl
    rw [h2] at h1
    exact_mod_cast h1
  have habs_den : |q|.den = q.den := by
    rcases abs_choice q with habs | habs <;> rw [habs]
    exact Rat.den_neg_eq_den q
  have habs_dvd : |q|.den ∣ 10 ^ k0 := habs_den ▸ hdvd
  have hparse_body : parseDecCore (fmtBody |q|) = some |q| :=
    fmtBody_parse |q| (abs_nonneg q) habs_dvd
  by_cases hq : q < 0
  · rw [fmtNum, fmtNumChars, if_pos hq, parseF64_mk_neg, hparse_body]
    simp [abs_of_neg hq]
  · have habs : |q| = q := abs_of_nonneg (not_lt.mp hq)
    obtain ⟨d, cs, hd, hbody⟩ :=
      fmtBody_head |q| (fun h1 => minPow10_pos h1 habs_dvd)
    rw [fmtNum, fmtNumChars, if_neg hq, hbody,
      parseF64_mk_cons (digitChar_ne_sign hd).1 (digitChar_ne_sign hd).2,
      ← hbody, hparse_body, habs]

/-- C9: composing the built-in transformers `to_string` then `to_number`
is the identity on Numbers (exact-rational idealisation: every number
with a finite decimal expansion, which covers all finite doubles,
round-trips through its rendering). -/
theorem to_number_to_string_roundtrip (q : ℚ) (h : FiniteDecimal q) :
    builtinTransformer "to_string" (.Number q) = some (.String (fmtNum q)) ∧
    builtinTransformer "to_number" (.String (fmtNum q)) = some (.Number q) := by
  refine ⟨rfl, ?_⟩
  simp [builtinTransformer, toNumberB, parseF64_fmtNum q h]

/-- Witness for `to_number_to_string_roundtrip` at `q = 1/2`. -/
theorem to_number_to_string_roundtrip_witness :
    builtinTransformer "to_number" (.String (fmtNum (1 / 2))) = some (.Number (1 / 2)) :=
  (to_number_to_string_roundtrip (1 / 2) ⟨5, 1, by norm_num⟩).2

/-! ### Environment hygiene (for C2 and C4)

`FrameDomEq`/`FrameDomLe` compare which names a frame binds;
`EnvApprox e e'` says evaluation starting from chain `e` can only have
grown the innermost frame and changed values at already-bound names of
the outer frames. -/

def FrameDomLe (f g : Frame) : Prop :=
  ∀ name, (lookupFrame f name).isSome → (lookupFrame g name).isSome

def FrameDomEq (f g : Frame) : Prop :=
  ∀ name, (lookupFrame f name).isSome ↔ (lookupFrame g name).isSome

def EnvApprox : Env → Env → Prop
  | [], [] => True
  | f :: t, g :: u => FrameDomLe f g ∧ List.Forall₂ FrameDomEq t u
  | _, _ => False

theorem frameDomLe_refl {f : Frame} : FrameDomLe f f := fun _ h => h

theorem frameDomLe_comp {f g h : Frame} (h1 : FrameDomLe f g) (h2 : FrameDomLe g h) :
    FrameDomLe f h := fun n hn => h2 n (h1 n hn)

theorem frameDomEq_refl {f : Frame} : FrameDomEq f f := fun _ => Iff.rfl

theorem frameDomEq_comp {f g h : Frame} (h1 : FrameDomEq f g) (h2 : FrameDomEq g h) :
    FrameDomEq f h := fun n => (h1 n).trans (h2 n)

theorem frameDomEq_le {f g : Frame} (h : FrameDomEq f g) : FrameDomLe f g :=
  fun n hn => (h n).mp hn

theorem forall2_domEq_refl (l : List Frame) : List.Forall₂ FrameDomEq l l := by
  induction l with
  | nil => exact List.Forall₂.nil
  | cons f t ih => exact List.Forall₂.cons frameDomEq_refl ih

theorem forall2_domEq_trans {a b c : List Frame}
    (h1 : List.Forall₂ FrameDomEq a b) (h2 : List.Forall₂ FrameDomEq b c) :
    List.Forall₂ FrameDomEq a c := by
  induction h1 generalizing c with
  | nil =>
    cases h2
    exact List.Forall₂.nil
  | cons hfg htu ih =>
    cases h2 with
    | cons hgh huv => exact List.Forall₂.cons (frameDomEq_comp hfg hgh) (ih huv)

theorem EnvApprox.refl (e : Env) : EnvApprox e e := by
  cases e with
  | nil => trivial
  | cons f t => exact ⟨frameDomLe_refl, forall2_domEq_refl t⟩

theorem EnvApprox.trans {a b c : Env} (h1 : EnvApprox a b) (h2 : EnvApprox b c) :
    EnvApprox a c := by
  cases a with
  | nil =>
    cases b with
    | nil => exact h2
    | cons g u => exact absurd h1 (by simp [EnvApprox])
  | cons f t =>
    cases b with
    | nil => exact absurd h1 (by simp [EnvApprox])
    | cons g u =>
      cases c with
      | nil => exact absurd h2 (by simp [EnvApprox])
      | cons h v =>
        exact ⟨frameDomLe_comp h1.1 h2.1, forall2_domEq_trans h1.2 h2.2⟩

theorem envApprox_of_forall2 {a b : Env} (h : List.Forall₂ FrameDomEq a b) :
    EnvApprox a b := by
  cases h with
  | nil => trivial
  | cons hfg htu => exact ⟨frameDomEq_le hfg, htu⟩

theorem forall2_comp_envApprox {a b c : Env}
    (h1 : List.Forall₂ FrameDomEq a b) (h2 : EnvApprox b c) : EnvApprox a c :=
  (envApprox_of_forall2 h1).trans h2

theorem lookupFrame_isSome_iff (f : Frame) (n : String) :
    (lookupFrame f n).isSome ↔ ∃ p ∈ f, p.1 = n := by
  simp [lookupFrame, List.find?_isSome, beq_iff_eq]

theorem lookupFrame_insertFrame_isSome_iff (f : Frame) (name : String) (v : Value)
    (n : String) :
    (lookupFrame (insertFrame f name v) n).isSome ↔
      ((lookupFrame f n).isSome ∨ n = name) := by
  rw [lookupFrame_isSome_iff, lookupFrame_isSome_iff]
  unfold insertFrame
  by_cases hmem : (List.find? (fun q => q.1 == name) f).isSome = true
  · rw [if_pos hmem]
    obtain ⟨p0, hp0mem, hp0key⟩ : ∃ p0 ∈ f, p0.1 = name := by
      obtain ⟨p0, h1, h2⟩ := List.find?_isSome.mp hmem
      exact ⟨p0, h1, by simpa [beq_iff_eq] using h2⟩
    constructor
    · rintro ⟨q, hq, hqn⟩
      obtain ⟨p, hp, rfl⟩ := List.mem_map.mp hq
      by_cases hpk : (p.1 == name) = true
      · rw [if_pos hpk] at hqn
        exact Or.inr hqn.symm
      · rw [if_neg hpk] at hqn
        exact Or.inl ⟨p, hp, hqn⟩
    · rintro (⟨p, hp, hpn⟩ | rfl)
      · by_cases hpk : (p.1 == name) = true
        · refine ⟨(name, v), List.mem_map.mpr ⟨p, hp, by rw [if_pos hpk]⟩, ?_⟩
          rw [beq_iff_eq] at hpk
          rw [← hpk, hpn]
        · exact ⟨p, List.mem_map.mpr ⟨p, hp, by rw [if_neg hpk]⟩, hpn⟩
      · refine ⟨(p0.1, v), List.mem_map.mpr ⟨p0, hp0mem, ?_⟩, hp0key⟩
        rw [if_pos (by simpa [beq_iff_eq] using hp0key), hp0key]
  · rw [if_neg hmem]
    constructor
    · rintro ⟨q, hq, hqn⟩
      rcases List.mem_append.mp hq with hq | hq
      · exact Or.inl ⟨q, hq, hqn⟩
      · rw [List.mem_singleton] at hq
        subst hq
        exact Or.inr hqn.symm
    · rintro (⟨p, hp, hpn⟩ | rfl)
      · exact ⟨p, List.mem_append.mpr (Or.inl hp), hpn⟩
      · exact ⟨(n, v), List.mem_append.mpr (Or.inr (List.mem_singleton.mpr rfl)), rfl⟩

theorem frameDomLe_insertFrame (f : Frame) (name : String) (v : Value) :
    FrameDomLe f (insertFrame f name v) :=
  fun n hn => (lookupFrame_insertFrame_isSome_iff f name v n).mpr (Or.inl hn)

theorem frameDomEq_insertFrame_of_isSome {f : Frame} {name : String}
    (h : (lookupFrame f name).isSome) (v : Value) :
    FrameDomEq f (insertFrame f name v) := by
  intro n
  rw [lookupFrame_insertFrame_isSome_iff]
  constructor
  · exact Or.inl
  · rintro (hn | rfl)
    · exact hn
    · exact h

theorem envApprox_envDefine (e : Env) (name : String) (v : Value) :
    EnvApprox e (envDefine e name v) := by
  cases e with
  | nil => trivial
  | cons f t => exact ⟨frameDomLe_insertFrame f name v, forall2_domEq_refl t⟩

theorem envAssign_forall2 {e : Env} {name : String} {v : Value} {e' : Env}
    (h : envAssign e name v = some e') : List.Forall₂ FrameDomEq e e' := by
  induction e generalizing e' with
  | nil => simp [envAssign] at h
  | cons f t ih =>
    rw [envAssign] at h
    by_cases hl : (lookupFrame f name).isSome
    · rw [if_pos hl] at h
      injection h with h'
      subst h'
      exact List.Forall₂.cons (frameDomEq_insertFrame_of_isSome hl v) (forall2_domEq_refl t)
    · rw [if_neg hl] at h
      rcases ht : envAssign t name v with _ | t'
      · rw [ht] at h
        simp at h
      · rw [ht] at h
        simp only [Option.map_some', Option.some_inj] at h
        subst h
        exact List.Forall₂.cons frameDomEq_refl (ih ht)

theorem envGet_cons_isSome (f : Frame) (t : Env) (n : String) :
    (envGet (f :: t) n).isSome ↔ ((lookupFrame f n).isSome ∨ (envGet t n).isSome) := by
  rw [envGet]
  rcases h : lookupFrame f n with _ | v <;> simp [h]

theorem envGet_isSome_of_forall2 {a b : Env} (h : List.Forall₂ FrameDomEq a b)
    {n : String} (hg : (envGet a n).isSome) : (envGet b n).isSome := by
  induction h with
  | nil => simpa [envGet] using hg
  | cons hfg htu ih =>
    rw [envGet_cons_isSome] at hg ⊢
    rcases hg with hg | hg
    · exact Or.inl ((hfg n).mp hg)
    · exact Or.inr (ih hg)

theorem envGet_isSome_of_approx {a b : Env} (h : EnvApprox a b) {n : String}
    (hg : (envGet a n).isSome) : (envGet b n).isSome := by
  cases a with
  | nil => simp [envGet] at hg
  | cons f t =>
    cases b with
    | nil => exact absurd h (by simp [EnvApprox])
    | cons g u =>
      rw [envGet_cons_isSome] at hg ⊢
      rcases hg with hg | hg
      · exact Or.inl (h.1 n hg)
      · exact Or.inr (envGet_isSome_of_forall2 h.2 hg)

theorem envAssign_isSome_of_envGet {e : Env} {n : String}
    (h : (envGet e n).isSome) (v : Value) : ∃ e', envAssign e n v = some e' := by
  induction e with
  | nil => simp [envGet] at h
  | cons f t ih =>
    rw [envGet_cons_isSome] at h
    by_cases hl : (lookupFrame f n).isSome
    · exact ⟨insertFrame f n v :: t, by rw [envAssign, if_pos hl]⟩
    · obtain ⟨t', ht'⟩ := ih (h.resolve_left hl)
      exact ⟨f :: t', by rw [envAssign, if_neg hl, ht', Option.map_some']⟩

theorem lookupFrame_insertFrame_self (f : Frame) (name : String) (v : Value) :
    lookupFrame (insertFrame f name v) name = some v := by
  unfold insertFrame
  by_cases hmem : (List.find? (fun q => q.1 == name) f).isSome = true
  · rw [if_pos hmem]
    induction f with
    | nil => simp at hmem
    | cons p t ih =>
      by_cases hpk : (p.1 == name) = true
      · rw [List.map_cons, if_pos hpk, lookupFrame,
          List.find?_cons_of_pos _ (by simp), Option.map_some']
      · rw [List.find?_cons_of_neg _ (by simpa using hpk)] at hmem
        rw [List.map_cons, if_neg hpk, lookupFrame,
          List.find?_cons_of_neg _ (by simpa using hpk)]
        exact ih hmem
  · rw [if_neg hmem]
    induction f with
    | nil =>
      rw [List.nil_append, lookupFrame, List.find?_cons_of_pos _ (by simp),
        Option.map_some']
    | cons p t ih =>
      by_cases hpk : (p.1 == name) = true
      · exfalso
        apply hmem
        have hpk2 : ((fun (q : String × Value) => q.1 == name) p) = true := hpk
        rw [List.find?_cons_of_pos t hpk2]
        rfl
      · rw [List.find?_cons_of_neg _ (by simpa using hpk)] at hmem
        rw [List.cons_append, lookupFrame,
          List.find?_cons_of_neg _ (by simpa using hpk)]
        exact ih hmem

theorem envGet_envAssign_self {e : Env} {n : String} {v : Value} {e' : Env}
    (h : envAssign e n v = some e') : envGet e' n = some v := by
  induction e generalizing e' with
  | nil => simp [envAssign] at h
  | cons f t ih =>
    rw [envAssign] at h
    by_cases hl : (lookupFrame f n).isSome
    · rw [if_pos hl] at h
      injection h with h'
      subst h'
      rw [envGet, lookupFrame_insertFrame_self]
    · rw [if_neg hl] at h
      rcases ht : envAssign t n v with _ | t'
      · rw [ht] at h
        simp at h
      · rw [ht] at h
        simp only [Option.map_some', Option.some_inj] at h
        subst h
        rw [envGet, show lookupFrame f n = none from
          Option.not_isSome_iff_eq_none.mp hl]
        exact ih ht

/-- Master hygiene invariant: a successful evaluation step can only grow
the innermost frame's bindings and change values at names the outer
frames already bind; a `for` element loop (which pushes and pops its own
frame) preserves every frame's bindings exactly. -/
theorem envApprox_eval : ∀ n : ℕ,
    (∀ e st v st', eval n e st = .ok (v, st') → EnvApprox st.env st'.env) ∧
    (∀ es st vs st', evalElems n es st = .ok (vs, st') → EnvApprox st.env st'.env) ∧
    (∀ es st v st', evalSeq n es st = .ok (v, st') → EnvApprox st.env st'.env) ∧
    (∀ es st v st', runBody n es st = .ok (v, st') → EnvApprox st.env st'.env) ∧
    (∀ acc ps args st fr st', bindArgs n acc ps args st = .ok (fr, st') →
      EnvApprox st.env st'.env) ∧
    (∀ c args st v st', evalCall n c args st = .ok (v, st') → EnvApprox st.env st'.env) ∧
    (∀ o tn args ov st v st', evalApplyUser n o tn args ov st = .ok (v, st') →
      EnvApprox st.env st'.env) ∧
    (∀ vn bd xs acc st v st', evalForElems n vn bd xs acc st = .ok (v, st') →
      List.Forall₂ FrameDomEq st.env st'.env) ∧
    (∀ c bd st v st', evalWhile n c bd st = .ok (v, st') → EnvApprox st.env st'.env) := by
  intro n
  induction n with
  | zero =>
    exact ⟨fun e st v st' h => absurd h (by simp [eval]),
      fun es st vs st' h => absurd h (by simp [evalElems]),
      fun es st v st' h => absurd h (by simp [evalSeq]),
      fun es st v st' h => absurd h (by simp [runBody]),
      fun acc ps args st fr st' h => absurd h (by simp [bindArgs]),
      fun c args st v st' h => absurd h (by simp [evalCall]),
      fun o tn args ov st v st' h => absurd h (by simp [evalApplyUser]),
      fun vn bd xs acc st v st' h => absurd h (by simp [evalForElems]),
      fun c bd st v st' h => absurd h (by simp [evalWhile])⟩
  | succ n ih =>
    obtain ⟨ihEval, ihElems, ihSeq, ihBody, ihBind, ihCall, ihApply, ihFor, ihWhile⟩ := ih
    refine ⟨?_, ?_, ?_, ?_, ?_, ?_, ?_, ?_, ?_⟩
    · -- eval
      intro e st v st' h
      cases e with
      | Number val =>
        simp only [eval, Except.ok.injEq, Prod.mk.injEq] at h
        obtain ⟨-, rfl⟩ := h
        exact EnvApprox.refl _
      | String val =>
        simp only [eval, Except.ok.injEq, Prod.mk.injEq] at h
        obtain ⟨-, rfl⟩ := h
        exact EnvApprox.refl _
      | Boolean val =>
        simp only [eval, Except.ok.injEq, Prod.mk.injEq] at h
        obtain ⟨-, rfl⟩ := h
        exact EnvApprox.refl _
      | Array elements =>
        simp only [eval] at h
        rcases h1 : evalElems n elements st with err | p
        · rw [h1] at h
          exact absurd h (by simp)
        obtain ⟨vs, st₁⟩ := p
        rw [h1] at h
        dsimp only at h
        simp only [Except.ok.injEq, Prod.mk.injEq] at h
        obtain ⟨-, rfl⟩ := h
        exact ihElems _ _ _ _ h1
      | Variable name =>
        simp only [eval] at h
        rcases h1 : envGet st.env name with _ | v₀ <;> rw [h1] at h <;> dsimp only at h
        · exact absurd h (by simp)
        · simp only [Except.ok.injEq, Prod.mk.injEq] at h
          obtain ⟨-, rfl⟩ := h
          exact EnvApprox.refl _
      | Binary l op r =>
        simp only [eval] at h
        rcases h1 : eval n l st with err | p
        · rw [h1] at h
          exact absurd h (by simp)
        obtain ⟨lv, st₁⟩ := p
        rw [h1] at h
        dsimp only at h
        rcases h2 : eval n r st₁ with err | p
        · rw [h2] at h
          exact absurd h (by simp)
        obtain ⟨rv, st₂⟩ := p
        rw [h2] at h
        dsimp only at h
        rcases h3 : applyBinOp op lv rv with err | v₀ <;> rw [h3] at h <;> dsimp only at h
        · exact absurd h (by simp)
        simp only [Except.ok.injEq, Prod.mk.injEq] at h
        obtain ⟨-, rfl⟩ := h
        exact (ihEval _ _ _ _ h1).trans (ihEval _ _ _ _ h2)
      | Unary op r =>
        simp only [eval] at h
        rcases h1 : eval n r st with err | p
        · rw [h1] at h
          exact absurd h (by simp)
        obtain ⟨rv, st₁⟩ := p
        rw [h1] at h
        dsimp only at h
        rcases h2 : applyUnOp op rv with err | v₀ <;> rw [h2] at h <;> dsimp only at h
        · exact absurd h (by simp)
        simp only [Except.ok.injEq, Prod.mk.injEq] at h
        obtain ⟨-, rfl⟩ := h
        exact ihEval _ _ _ _ h1
      | Assign name value =>
        simp only [eval] at h
        rcases h1 : eval n value st with err | p
        · rw [h1] at h
          exact absurd h (by simp)
        obtain ⟨v₀, st₁⟩ := p
        rw [h1] at h
        dsimp only at h
        by_cases hg : (envGet st₁.env name).isSome
        · rw [if_pos hg] at h
          rcases h2 : envAssign st₁.env name v₀ with _ | env' <;> rw [h2] at h <;>
            dsimp only at h
          · exact absurd h (by simp)
          · simp only [Except.ok.injEq, Prod.mk.injEq] at h
            obtain ⟨-, rfl⟩ := h
            exact (ihEval _ _ _ _ h1).trans
              (envApprox_of_forall2 (envAssign_forall2 h2))
        · rw [if_neg hg] at h
          simp only [Except.ok.injEq, Prod.mk.injEq] at h
          obtain ⟨-, rfl⟩ := h
          exact (ihEval _ _ _ _ h1).trans (envApprox_envDefine _ _ _)
      | Call callee arguments =>
        simp only [eval] at h
        exact ihCall _ _ _ _ _ h
      | Function name params body =>
        simp only [eval, Except.ok.injEq, Prod.mk.injEq] at h
        obtain ⟨-, rfl⟩ := h
        exact envApprox_envDefine _ _ _
      | Return value =>
        cases value with
        | some e' =>
          simp only [eval] at h
          exact ihEval _ _ _ _ h
        | none =>
          simp only [eval, Except.ok.injEq, Prod.mk.injEq] at h
          obtain ⟨-, rfl⟩ := h
          exact EnvApprox.refl _
      | Index object index =>
        simp only [eval] at h
        rcases h1 : eval n object st with err | p
        · rw [h1] at h
          exact absurd h (by simp)
        obtain ⟨ov, st₁⟩ := p
        rw [h1] at h
        dsimp only at h
        rcases h2 : eval n index st₁ with err | p
        · rw [h2] at h
          exact absurd h (by simp)
        obtain ⟨iv, st₂⟩ := p
        rw [h2] at h
        dsimp only at h
        have happrox := (ihEval _ _ _ _ h1).trans (ihEval _ _ _ _ h2)
        split at h
        · split at h
          · simp only [Except.ok.injEq, Prod.mk.injEq] at h
            obtain ⟨-, rfl⟩ := h
            exact happrox
          · exact absurd h (by simp)
        · exact absurd h (by simp)
      | Block expressions =>
        simp only [eval] at h
        exact ihSeq _ _ _ _ h
      | If condition thenBranch elseBranch =>
        simp only [eval] at h
        rcases h1 : eval n condition st with err | p
        · rw [h1] at h
          exact absurd h (by simp)
        obtain ⟨cv, st₁⟩ := p
        rw [h1] at h
        dsimp only at h
        split at h
        · exact (ihEval _ _ _ _ h1).trans (ihEval _ _ _ _ h)
        · split at h
          · exact (ihEval _ _ _ _ h1).trans (ihEval _ _ _ _ h)
          · simp only [Except.ok.injEq, Prod.mk.injEq] at h
            obtain ⟨-, rfl⟩ := h
            exact ihEval _ _ _ _ h1
        · exact absurd h (by simp)
      | For varName iterable body =>
        simp only [eval] at h
        rcases h1 : eval n iterable st with err | p
        · rw [h1] at h
          exact absurd h (by simp)
        obtain ⟨iv, st₁⟩ := p
        rw [h1] at h
        dsimp only at h
        split at h
        · exact (ihEval _ _ _ _ h1).trans
            (envApprox_of_forall2 (ihFor _ _ _ _ _ _ _ h))
        · exact (ihEval _ _ _ _ h1).trans
            (envApprox_of_forall2 (ihFor _ _ _ _ _ _ _ h))
        · exact absurd h (by simp)
      | While condition body =>
        simp only [eval] at h
        exact ihWhile _ _ _ _ _ h
      | Transformer name params body =>
        simp only [eval, Except.ok.injEq, Prod.mk.injEq] at h
        obtain ⟨-, rfl⟩ := h
        exact envApprox_envDefine _ _ _
      | Apply object transformer arguments =>
        simp only [eval] at h
        rcases h1 : eval n object st with err | p
        · rw [h1] at h
          exact absurd h (by simp)
        obtain ⟨ov, st₀⟩ := p
        rw [h1] at h
        dsimp only at h
        split at h
        · simp only [Except.ok.injEq, Prod.mk.injEq] at h
          obtain ⟨-, rfl⟩ := h
          exact ihEval _ _ _ _ h1
        · exact (ihEval _ _ _ _ h1).trans (ihApply _ _ _ _ _ _ _ h)
    · -- evalElems
      intro es st vs st' h
      cases es with
      | nil =>
        simp only [evalElems, Except.ok.injEq, Prod.mk.injEq] at h
        obtain ⟨-, rfl⟩ := h
        exact EnvApprox.refl _
      | cons e rest =>
        simp only [evalElems] at h
        rcases h1 : eval n e st with err | p
        · rw [h1] at h
          exact absurd h (by simp)
        obtain ⟨v₀, st₁⟩ := p
        rw [h1] at h
        dsimp only at h
        rcases h2 : evalElems n rest st₁ with err | p
        · rw [h2] at h
          exact absurd h (by simp)
        obtain ⟨vs₁, st₂⟩ := p
        rw [h2] at h
        dsimp only at h
        simp only [Except.ok.injEq, Prod.mk.injEq] at h
        obtain ⟨-, rfl⟩ := h
        exact (ihEval _ _ _ _ h1).trans (ihElems _ _ _ _ h2)
    · -- evalSeq
      intro es st v st' h
      cases es with
      | nil =>
        simp only [evalSeq, Except.ok.injEq, Prod.mk.injEq] at h
        obtain ⟨-, rfl⟩ := h
        exact EnvApprox.refl _
      | cons e rest =>
        simp only [evalSeq] at h
        rcases h1 : eval n e st with err | p
        · rw [h1] at h
          exact absurd h (by simp)
        obtain ⟨v₀, st₁⟩ := p
        rw [h1] at h
        dsimp only at h
        by_cases hr : rest.isEmpty
        · rw [if_pos hr] at h
          simp only [Except.ok.injEq, Prod.mk.injEq] at h
          obtain ⟨-, rfl⟩ := h
          exact ihEval _ _ _ _ h1
        · rw [if_neg hr] at h
          exact (ihEval _ _ _ _ h1).trans (ihSeq _ _ _ _ h)
    · -- runBody
      intro es st v st' h
      cases es with
      | nil =>
        simp only [runBody, Except.ok.injEq, Prod.mk.injEq] at h
        obtain ⟨-, rfl⟩ := h
        exact EnvApprox.refl _
      | cons e rest =>
        simp only [runBody] at h
        rcases h1 : eval n e st with err | p
        · rw [h1] at h
          exact absurd h (by simp)
        obtain ⟨v₀, st₁⟩ := p
        rw [h1] at h
        dsimp only at h
        by_cases hret : isReturn e = true
        · rw [if_pos hret] at h
          simp only [Except.ok.injEq, Prod.mk.injEq] at h
          obtain ⟨-, rfl⟩ := h
          exact ihEval _ _ _ _ h1
        · rw [if_neg hret] at h
          by_cases hr : rest.isEmpty
          · rw [if_pos hr] at h
            simp only [Except.ok.injEq, Prod.mk.injEq] at h
            obtain ⟨-, rfl⟩ := h
            exact ihEval _ _ _ _ h1
          · rw [if_neg hr] at h
            exact (ihEval _ _ _ _ h1).trans (ihBody _ _ _ _ h)
    · -- bindArgs
      intro acc ps args st fr st' h
      cases ps with
      | nil =>
        simp only [bindArgs, Except.ok.injEq, Prod.mk.injEq] at h
        obtain ⟨-, rfl⟩ := h
        exact EnvApprox.refl _
      | cons p ps' =>
        cases args with
        | nil =>
          simp only [bindArgs] at h
          exact ihBind _ _ _ _ _ _ h
        | cons a args' =>
          simp only [bindArgs] at h
          rcases h1 : eval n a st with err | q
          · rw [h1] at h
            exact absurd h (by simp)
          obtain ⟨v₀, st₁⟩ := q
          rw [h1] at h
          dsimp only at h
          exact (ihEval _ _ _ _ h1).trans (ihBind _ _ _ _ _ _ h)
    · -- evalCall
      intro c args st v st' h
      simp only [evalCall] at h
      by_cases hp : c = "print"
      · rw [if_pos hp] at h
        split at h
        · rename_i a
          rcases h1 : eval n a st with err | p
          · rw [h1] at h
            exact absurd h (by simp)
          obtain ⟨v₀, st₁⟩ := p
          rw [h1] at h
          dsimp only at h
          simp only [Except.ok.injEq, Prod.mk.injEq] at h
          obtain ⟨-, rfl⟩ := h
          simpa using ihEval _ _ _ _ h1
        · exact absurd h (by simp)
      · rw [if_neg hp] at h
        by_cases hi : c = "input"
        · rw [if_pos hi] at h
          split at h
          · rename_i a
            rcases h1 : eval n a st with err | p
            · rw [h1] at h
              exact absurd h (by simp)
            obtain ⟨v₀, st₁⟩ := p
            rw [h1] at h
            dsimp only at h
            split at h
            · rename_i prompt
              split at h
              · simp only [Except.ok.injEq, Prod.mk.injEq] at h
                obtain ⟨-, rfl⟩ := h
                simpa using ihEval _ _ _ _ h1
              · simp only [Except.ok.injEq, Prod.mk.injEq] at h
                obtain ⟨-, rfl⟩ := h
                simpa using ihEval _ _ _ _ h1
            · exact absurd h (by simp)
          · exact absurd h (by simp)
        · rw [if_neg hi] at h
          by_cases hr : c = "range"
          · rw [if_pos hr] at h
            split at h
            · rename_i a b
              rcases h1 : eval n a st with err | p
              · rw [h1] at h
                exact absurd h (by simp)
              obtain ⟨av, st₁⟩ := p
              rw [h1] at h
              dsimp only at h
              split at h
              · rcases h2 : eval n b st₁ with err | q
                · rw [h2] at h
                  exact absurd h (by simp)
                obtain ⟨bv, st₂⟩ := q
                rw [h2] at h
                dsimp only at h
                split at h
                · simp only [Except.ok.injEq, Prod.mk.injEq] at h
                  obtain ⟨-, rfl⟩ := h
                  exact (ihEval _ _ _ _ h1).trans (ihEval _ _ _ _ h2)
                · exact absurd h (by simp)
              · exact absurd h (by simp)
            · exact absurd h (by simp)
          · rw [if_neg hr] at h
            split at h
            · rename_i params body heq0
              rcases h1 : bindArgs n [] params args st with err | p
              · rw [h1] at h
                exact absurd h (by simp)
              obtain ⟨fr, st₁⟩ := p
              rw [h1] at h
              dsimp only at h
              rcases h2 : runBody n body { st₁ with env := fr :: st.env } with err | q
              · rw [h2] at h
                exact absurd h (by simp)
              obtain ⟨v₀, st₂⟩ := q
              rw [h2] at h
              dsimp only at h
              simp only [Except.ok.injEq, Prod.mk.injEq] at h
              obtain ⟨-, rfl⟩ := h
              simpa using ihBind _ _ _ _ _ _ h1
            · exact absurd h (by simp)
    · -- evalApplyUser
      intro o tn args ov st v st' h
      simp only [evalApplyUser] at h
      split at h
      · rename_i params body heq0
        rcases h1 : bindArgs n (insertFrame [] "applied" ov) params args st with err | p
        · rw [h1] at h
          exact absurd h (by simp)
        obtain ⟨fr, st₁⟩ := p
        rw [h1] at h
        dsimp only at h
        rcases h2 : runBody n body { st₁ with env := fr :: st.env } with err | q
        · rw [h2] at h
          exact absurd h (by simp)
        obtain ⟨res, st₂⟩ := q
        rw [h2] at h
        dsimp only at h
        split at h
        · rename_i name
          rcases h3 : envAssign st₁.env name res with _ | env' <;> rw [h3] at h <;>
            dsimp only at h
          · exact absurd h (by simp)
          · simp only [Except.ok.injEq, Prod.mk.injEq] at h
            obtain ⟨-, rfl⟩ := h
            simpa using (ihBind _ _ _ _ _ _ h1).trans
              (envApprox_of_forall2 (envAssign_forall2 h3))
        · simp only [Except.ok.injEq, Prod.mk.injEq] at h
          obtain ⟨-, rfl⟩ := h
          simpa using ihBind _ _ _ _ _ _ h1
      · exact absurd h (by simp)
    · -- evalForElems
      intro vn bd xs acc st v st' h
      cases xs with
      | nil =>
        simp only [evalForElems, Except.ok.injEq, Prod.mk.injEq] at h
        obtain ⟨-, rfl⟩ := h
        exact forall2_domEq_refl _
      | cons x xs' =>
        simp only [evalForElems] at h
        rcases h1 : eval n bd { st with env := insertFrame [] vn x :: st.env }
          with err | p
        · rw [h1] at h
          exact absurd h (by simp)
        obtain ⟨v₁, st₁⟩ := p
        rw [h1] at h
        dsimp only at h
        split at h
        · rename_i f enclosing heq
          have happrox := ihEval _ _ _ _ h1
          rw [heq] at happrox
          have htail : List.Forall₂ FrameDomEq st.env enclosing := happrox.2
          exact forall2_domEq_trans htail (ihFor _ _ _ _ _ _ _ h)
        · exact absurd h (by simp)
    · -- evalWhile
      intro c bd st v st' h
      simp only [evalWhile] at h
      rcases h1 : eval n c st with err | p
      · rw [h1] at h
        exact absurd h (by simp)
      obtain ⟨cv, st₁⟩ := p
      rw [h1] at h
      dsimp only at h
      split at h
      · rcases h2 : eval n bd st₁ with err | q
        · rw [h2] at h
          exact absurd h (by simp)
        obtain ⟨bv, st₂⟩ := q
        rw [h2] at h
        dsimp only at h
        exact ((ihEval _ _ _ _ h1).trans (ihEval _ _ _ _ h2)).trans
          (ihWhile _ _ _ _ _ h)
      · simp only [Except.ok.injEq, Prod.mk.injEq] at h
        obtain ⟨-, rfl⟩ := h
        exact ihEval _ _ _ _ h1
      · exact absurd h (by simp)

/-- C2 counterexample: a `while` body runs directly in the caller's
environment, so a name first defined inside it persists after the loop:
here `x` is unbound before and bound to `1` afterwards. -/
theorem while_defines_persist_cex :
    eval 10 (.While (.Variable "b")
        (.Block [.Assign "x" (.Number 1), .Assign "b" (.Boolean false)]))
      ⟨[[("b", .Boolean true)]], [], []⟩ =
      .ok (.Nil, ⟨[[("b", .Boolean false), ("x", .Number 1)]], [], []⟩) ∧
    envGet [[("b", Value.Boolean true)]] "x" = none ∧
    envGet [[("b", Value.Boolean false), ("x", Value.Number 1)]] "x" =
      some (.Number 1) :=
  ⟨rfl, rfl, rfl⟩

/-- C2 (amended): after a user-defined function call the caller's
environment is exactly its state from just after argument evaluation —
every binding created or assigned inside the body is discarded; the same
holds for a user-transformer apply on a non-variable object (a bare
variable object additionally gets rebound, see the C4 theorem); after
each `for` iteration the environment binds exactly the names it bound
before (only values at already-bound names may change).  `while` bodies
are the exception: they run directly in the caller's environment, so
names they define persist (see the counterexample). -/
theorem env_hygiene_after_operations :
    (∀ (n : ℕ) (callee : String) (args : List Expr) (st : State)
        (params : List String) (body : List Expr) (frame : Frame) (st₁ : State)
        (v : Value) (st₂ : State),
      callee ≠ "print" → callee ≠ "input" → callee ≠ "range" →
      envGet st.env callee = some (.Function params body) →
      bindArgs n [] params args st = .ok (frame, st₁) →
      runBody n body { st₁ with env := frame :: st.env } = .ok (v, st₂) →
      evalCall (n + 1) callee args st = .ok (v, { st₂ with env := st₁.env })) ∧
    (∀ (n : ℕ) (object : Expr) (tname : String) (args : List Expr)
        (ov : Value) (st : State) (params : List String) (body : List Expr)
        (frame : Frame) (st₁ : State) (v : Value) (st₂ : State),
      (∀ nm, object ≠ .Variable nm) →
      envGet st.env tname = some (.Transformer params body) →
      bindArgs n (insertFrame [] "applied" ov) params args st = .ok (frame, st₁) →
      runBody n body { st₁ with env := frame :: st.env } = .ok (v, st₂) →
      evalApplyUser (n + 1) object tname args ov st =
        .ok (v, { st₂ with env := st₁.env })) ∧
    (∀ (n : ℕ) (vn : String) (bd : Expr) (xs : List Value) (acc : Value)
        (st : State) (v : Value) (st' : State),
      evalForElems n vn bd xs acc st = .ok (v, st') →
      List.Forall₂ FrameDomEq st.env st'.env) := by
  refine ⟨?_, ?_, ?_⟩
  · intro n callee args st params body frame st₁ v st₂ hp hi hr hget hbind hrun
    simp only [evalCall, if_neg hp, if_neg hi, if_neg hr]
    rw [hget]
    dsimp only
    rw [hbind]
    dsimp only
    rw [hrun]
  · intro n object tname args ov st params body frame st₁ v st₂ hnv hget hbind hrun
    cases object <;>
      first
        | exact absurd rfl (hnv _)
        | (simp only [evalApplyUser]
           rw [hget]
           dsimp only
           rw [hbind]
           dsimp only
           rw [hrun])
  · intro n vn bd xs acc st v st' h
    exact (envApprox_eval n).2.2.2.2.2.2.2.1 _ _ _ _ _ _ _ h

/-- Witness for `env_hygiene_after_operations`: two iterations of
`for i in [1, 2] { s = i }` rebind the already-bound outer `s` but leave
the set of bound names unchanged. -/
theorem env_hygiene_after_operations_witness :
    List.Forall₂ FrameDomEq [[("s", Value.Number 0)]] [[("s", Value.Number 2)]] :=
  env_hygiene_after_operations.2.2 6 "i" (.Assign "s" (.Variable "i"))
    [.Number 1, .Number 2] .Nil ⟨[[("s", .Number 0)]], [], []⟩ (.Number 2)
    ⟨[[("s", .Number 2)]], [], []⟩ rfl

/-- C4: applying a user transformer through dot syntax to a bare
variable bound in the caller's environment rebinds that variable's
nearest binding to the transformer's result, and the whole Apply
expression evaluates to that result; on a non-variable object no
rebinding happens — the environment is restored to its
post-argument-evaluation state. -/
theorem transformer_rebinds_variable (n : ℕ) (tname : String) (args : List Expr)
    (st : State) (params : List String) (body : List Expr)
    (frame : Frame) (st₁ : State) (result : Value) (st₂ : State) :
    (∀ (name : String) (ov : Value),
      envGet st.env name = some ov →
      builtinTransformer tname ov = none →
      envGet st.env tname = some (.Transformer params body) →
      bindArgs n (insertFrame [] "applied" ov) params args st = .ok (frame, st₁) →
      runBody n body { st₁ with env := frame :: st.env } = .ok (result, st₂) →
      ∃ env', envAssign st₁.env name result = some env' ∧
        eval (n + 2) (.Apply (.Variable name) tname args) st =
          .ok (result, { st₂ with env := env' }) ∧
        envGet env' name = some result) ∧
    (∀ (object : Expr) (ov : Value) (st₀ : State),
      (∀ nm, object ≠ .Variable nm) →
      eval (n + 1) object st = .ok (ov, st₀) →
      builtinTransformer tname ov = none →
      envGet st₀.env tname = some (.Transformer params body) →
      bindArgs n (insertFrame [] "applied" ov) params args st₀ = .ok (frame, st₁) →
      runBody n body { st₁ with env := frame :: st₀.env } = .ok (result, st₂) →
      eval (n + 2) (.Apply object tname args) st =
        .ok (result, { st₂ with env := st₁.env })) := by
  constructor
  · intro name ov hget hbi htrf hbind hrun
    have happrox : EnvApprox st.env st₁.env :=
      (envApprox_eval n).2.2.2.2.1 _ _ _ _ _ _ hbind
    have hsome : (envGet st₁.env name).isSome :=
      envGet_isSome_of_approx happrox (by simp [hget])
    obtain ⟨env', hassign⟩ := envAssign_isSome_of_envGet hsome result
    refine ⟨env', hassign, ?_, envGet_envAssign_self hassign⟩
    show eval (n + 1 + 1) (.Apply (.Variable name) tname args) st = _
    simp only [eval]
    rw [hget]
    dsimp only
    rw [hbi]
    dsimp only
    simp only [evalApplyUser]
    rw [htrf]
    dsimp only
    rw [hbind]
    dsimp only
    rw [hrun]
    dsimp only
    rw [hassign]
  · intro object ov st₀ hnv hobj hbi htrf hbind hrun
    have step1 : eval (n + 1 + 1) (.Apply object tname args) st =
        evalApplyUser (n + 1) object tname args ov st₀ := by
      show (match eval (n + 1) object st with
        | .error err => .error err
        | .ok (objectVal, stA) =>
          match builtinTransformer tname objectVal with
          | some v => .ok (v, stA)
          | none => evalApplyUser (n + 1) object tname args objectVal stA) =
        evalApplyUser (n + 1) object tname args ov st₀
      rw [hobj]
      dsimp only
      rw [hbi]
    rw [step1]
    cases object <;>
      first
        | exact absurd rfl (hnv _)
        | (simp only [evalApplyUser]
           rw [htrf]
           dsimp only
           rw [hbind]
           dsimp only
           rw [hrun])

/-- Witness for `transformer_rebinds_variable`: `x.retag()` with
`transformer retag() { return "done" }` rebinds `x` to `"done"`. -/
theorem transformer_rebinds_variable_witness :
    eval 5 (.Apply (.Variable "x") "retag" [])
      ⟨[[("x", .Number 4),
         ("retag", .Transformer [] [.Return (some (.String "done"))])]], [], []⟩ =
      .ok (.String "done",
        ⟨[[("x", .String "done"),
           ("retag", .Transformer [] [.Return (some (.String "done"))])]], [], []⟩) := by
  obtain ⟨env', h1, h2, h3⟩ :=
    (transformer_rebinds_variable 3 "retag" []
      ⟨[[("x", .Number 4),
         ("retag", .Transformer [] [.Return (some (.String "done"))])]], [], []⟩
      [] [.Return (some (.String "done"))]
      (insertFrame [] "applied" (.Number 4))
      ⟨[[("x", .Number 4),
         ("retag", .Transformer [] [.Return (some (.String "done"))])]], [], []⟩
      (.String "done")
      ⟨insertFrame [] "applied" (.Number 4) ::
        [[("x", .Number 4),
          ("retag", .Transformer [] [.Return (some (.String "done"))])]], [], []⟩).1
      "x" (.Number 4) rfl rfl rfl rfl rfl
  have hE : env' = [[("x", Value.String "done"),
      ("retag", Value.Transformer [] [.Return (some (.String "done"))])]] := by
    have h4 : envAssign
        [[("x", Value.Number 4),
          ("retag", Value.Transformer [] [.Return (some (.String "done"))])]]
        "x" (.String "done") =
        some [[("x", Value.String "done"),
          ("retag", Value.Transformer [] [.Return (some (.String "done"))])]] := rfl
    have h5 := h1.symm.trans h4
    injection h5
  rw [hE] at h2
  exact h2

end MLang